import Mathlib

/-
Verification of the reconciliation logic of
plugins/modules/system_high_availability_settings.py (puzzle.opnsense).

The module mutates the children of the opnsense/hasync XML node.  We embed
that node as a list of (tag, text) pairs in document order; the surrounding
record is an Option over it (the node may be absent before bootstrap).
The external configuration store (config_utils.OPNsenseModuleConfig) is not
part of the repository sources; its get/set/remove primitives are modelled
from the spec (section 6, "Configuration store").
-/

namespace HASettings

/-- A child element of the hasync node: tag name and text content. -/
abbrev Leaf := String × String

/-- The children of the opnsense/hasync node, in document order. -/
abbrev Hasync := List Leaf

/-- The relevant slice of the configuration record: the hasync node,
which may be absent before bootstrap. -/
abbrev Record := Option Hasync

/-- Modelled from the spec: the store's get primitive (config.get) restricted
to hasync children; like ElementTree.find it returns the text of the first
child with the given tag. -/
def findLeaf : Hasync → String → Option String
  | [], _ => none
  | c :: rest, tag => if c.1 = tag then some c.2 else findLeaf rest tag

/-- Modelled from the spec: the store's set primitive (config.set) with a
string value: update the first child with the given tag in place, or append
a new child when none exists. -/
def setLeaf : Hasync → String → String → Hasync
  | [], tag, v => [(tag, v)]
  | c :: rest, tag, v => if c.1 = tag then (tag, v) :: rest else c :: setLeaf rest tag v

/-- Remove the first child with the given tag (ElementTree remove applied to
the element returned by find). -/
def eraseLeaf : Hasync → String → Hasync
  | [], _ => []
  | c :: rest, tag => if c.1 = tag then rest else c :: eraseLeaf rest tag

/-- Modelled from the spec: config.set with an optional value; the spec
(section 4.2) states that bootstrap leaves the three optional remote-sync
scalars absent, so a None value clears the leaf. -/
def configSet (h : Hasync) (tag : String) : Option String → Hasync
  | some v => setLeaf h tag v
  | none => eraseLeaf h tag

/-- The hasync children all carry distinct tags (each child of the HA block
is a named leaf in the spec's data model). -/
def NodupTags (h : Hasync) : Prop := (h.map Prod.fst).Nodup

/- ------------------------------------------------------------------ -/
/- Interface resolution (synchronize_interface, lines 196-213).       -/
/- ------------------------------------------------------------------ -/

/-- Python str.lower(), as the character-wise ASCII lowercase map over the
string's characters (String.toLower does the same but does not reduce in the
kernel). -/
def strLower (s : String) : String := String.mk (s.data.map Char.toLower)

/-- Description stored for lo0 after dict update, i.e. the fetched value when
the fetched mapping itself lists lo0, else the hard-coded "Loopback". -/
def lo0Desc : List (String × String) → String
  | [] => "Loopback"
  | p :: rest => if p.1 = "lo0" then p.2 else lo0Desc rest

/-- Drop any fetched entry keyed lo0 (its value has been merged into the
initial lo0 entry by dict.update). -/
def removeLo0 : List (String × String) → List (String × String)
  | [] => []
  | p :: rest => if p.1 = "lo0" then removeLo0 rest else p :: removeLo0 rest

/-- interfaces = {"lo0": "Loopback"}; interfaces.update(fetched): lo0 keeps
its leading position (value possibly overwritten), remaining fetched entries
follow in order. -/
def mergeLo0 (fetched : List (String × String)) : List (String × String) :=
  ("lo0", lo0Desc fetched) :: removeLo0 fetched

/-- The loop body of synchronize_interface: first entry whose identifier or
description equals the token after lowercasing, yielding its identifier. -/
def findInterface : List (String × String) → String → Option String
  | [], _ => none
  | p :: rest, tok =>
    if strLower tok = strLower p.1 ∨ strLower tok = strLower p.2 then some p.1
    else findInterface rest tok

/-- Interface token resolution against the merged interface mapping. -/
def resolveInterface (fetched : List (String × String)) (tok : String) : Option String :=
  findInterface (mergeLo0 fetched) tok

/-- Error message raised by synchronize_interface (lines 210-213). -/
def interfaceErrMsg (sync_interface : String) : String :=
  "'" ++ sync_interface ++ "' is not a valid interface. " ++
    "If the interface exists, ensure it is enabled and also not virtual."

/-- Handler synchronize_interface (lines 196-213): resolve the token against
the merged mapping; on success set the synchronize_interface leaf to the
canonical identifier, otherwise raise ValueError (returned as the message). -/
def synchronize_interface (fetched : List (String × String)) (h : Hasync)
    (sync_interface : String) : Hasync × Option String :=
  match resolveInterface fetched sync_interface with
  | some ident => (setLeaf h "synchronize_interface" ident, none)
  | none => (h, some (interfaceErrMsg sync_interface))

/- ------------------------------------------------------------------ -/
/- Bootstrap (check_hasync_node, lines 115-135).                      -/
/- ------------------------------------------------------------------ -/

/-- Handler check_hasync_node (lines 115-135): when the hasync node is absent
create it empty, resolve the fixed default interface "lan", and clear the
three optional remote-sync scalars; when present do nothing.  The returned
children are those of the (possibly fresh) hasync node; a ValueError raised
by synchronize_interface propagates as the second component. -/
def check_hasync_node (fetched : List (String × String)) : Record → Hasync × Option String
  | some h => (h, none)
  | none =>
    match synchronize_interface fetched [] "lan" with
    | (h1, some e) => (h1, some e)
    | (h1, none) =>
      (configSet (configSet (configSet h1
        "synchronize_config_to_ip" none)
        "remote_system_username" none)
        "remote_system_password" none, none)

/- ------------------------------------------------------------------ -/
/- synchronize_states (lines 138-148).                                -/
/- ------------------------------------------------------------------ -/

/-- Handler synchronize_states (lines 138-148): set the presence leaf to "on"
when desired and absent; remove it when undesired and present; otherwise do
nothing. -/
def synchronize_states (h : Hasync) (setting : Bool) : Hasync :=
  if setting ∧ findLeaf h "synchronize_states" = none then
    setLeaf h "synchronize_states" "on"
  else if ¬setting ∧ findLeaf h "synchronize_states" ≠ none then
    eraseLeaf h "synchronize_states"
  else h

/- ------------------------------------------------------------------ -/
/- synchronize_peer_ip (lines 216-226).                               -/
/- ------------------------------------------------------------------ -/

/-- Handler synchronize_peer_ip (lines 216-226): a truthy (non-empty) value
is written; a falsy value removes the leaf when present. -/
def synchronize_peer_ip (h : Hasync) (peer_ip : String) : Hasync :=
  if peer_ip ≠ "" then setLeaf h "synchronize_peer_ip" peer_ip
  else if findLeaf h "synchronize_peer_ip" ≠ none then eraseLeaf h "synchronize_peer_ip"
  else h

/- ------------------------------------------------------------------ -/
/- remote_system_synchronization (lines 229-249).                     -/
/- ------------------------------------------------------------------ -/

/-- Python truthiness of an optional string parameter. -/
def truthy : Option String → Bool
  | none => false
  | some s => s != ""

/-- Write the leaf when the optional parameter is truthy, else do nothing
(the body of each `if param:` guard in remote_system_synchronization). -/
def setIfTruthy (h : Hasync) (tag : String) : Option String → Hasync
  | some s => if s ≠ "" then setLeaf h tag s else h
  | none => h

/-- Handler remote_system_synchronization (lines 229-249): each of the three
scalars is written when its parameter is truthy and left untouched
otherwise; no branch ever removes a leaf. -/
def remote_system_synchronization (h : Hasync)
    (remote_backup_url username password : Option String) : Hasync :=
  setIfTruthy (setIfTruthy (setIfTruthy h
    "synchronize_config_to_ip" remote_backup_url)
    "remote_system_username" username)
    "remote_system_password" password

/- ------------------------------------------------------------------ -/
/- services_to_synchronize (lines 279-314).                           -/
/- ------------------------------------------------------------------ -/

/-- Membership of a token among the allow-list identifiers
(service in allowed_services.keys()). -/
def hasKey : List (String × String) → String → Bool
  | [], _ => false
  | p :: rest, k => if p.1 = k then true else hasKey rest k

/-- Membership of a token among the allow-list descriptions
(service in allowed_services.values()). -/
def hasDesc : List (String × String) → String → Bool
  | [], _ => false
  | p :: rest, d => if p.2 = d then true else hasDesc rest d

/-- Reverse dictionary lookup {v: k for k, v in allowed_services.items()}:
for duplicated descriptions the later entry overwrites the earlier one, so
the last matching identifier is returned. -/
def revLookup : List (String × String) → String → Option String
  | [], _ => none
  | p :: rest, d =>
    match revLookup rest d with
    | some k => some k
    | none => if p.2 = d then some p.1 else none

/-- Service token resolution (lines 290-295): exact match against the
identifiers first, then exact match against the descriptions via the
reversed dictionary; no lowercasing is performed. -/
def resolveService (allowed : List (String × String)) (tok : String) : Option String :=
  if hasKey allowed tok then some tok
  else if hasDesc allowed tok then revLookup allowed tok
  else none

/-- Error message raised for an unresolvable service token (lines 297-300). -/
def serviceErrMsg (allowed : List (String × String)) (service : String) : String :=
  "Service " ++ service ++ " could not be found in your Opnsense installation. " ++
    "These are all the available services: " ++
    String.intercalate ", " (allowed.map Prod.snd) ++ "."

/-- Flag node name for a service identifier (f"synchronize{service_id}"). -/
def famTag (sid : String) : String := "synchronize" ++ sid

/-- First loop of services_to_synchronize (lines 289-306): resolve each token
in order, raising on the first failure; append an "on" flag for each
resolved identifier whose flag node is absent.  Mutations made before a
failure remain in the returned children, as in the Python in-place code. -/
def syncAddPass (allowed : List (String × String)) : List String → Hasync → Hasync × Option String
  | [], h => (h, none)
  | t :: rest, h =>
    match resolveService allowed t with
    | none => (h, some (serviceErrMsg allowed t))
    | some sid =>
      if findLeaf h (famTag sid) = none then
        syncAddPass allowed rest (h ++ [(famTag sid, "on")])
      else syncAddPass allowed rest h

/-- Body of the removal loop (lines 307-314): remove the flag of an
allow-list entry when neither its identifier nor its description occurs
among the raw tokens and the flag node exists. -/
def syncRemoveStep (toks : List String) (h : Hasync) (p : String × String) : Hasync :=
  if p.1 ∉ toks ∧ p.2 ∉ toks ∧ findLeaf h (famTag p.1) ≠ none then
    eraseLeaf h (famTag p.1)
  else h

/-- Second loop of services_to_synchronize (lines 307-314), iterating the
allow-list entries in order. -/
def syncRemovePass (toks : List String) : List (String × String) → Hasync → Hasync
  | [], h => h
  | p :: rest, h => syncRemovePass toks rest (syncRemoveStep toks h p)

/-- A services_to_synchronize argument may arrive as a plain string or as a
list of strings (lines 287-288). -/
inductive StrOrList where
  | str (s : String)
  | list (l : List String)
  deriving DecidableEq

/-- Normalisation of the argument (lines 287-288): a plain string becomes a
one-element list. -/
def toTokenList : StrOrList → List String
  | .str s => [s]
  | .list l => l

/-- Handler services_to_synchronize (lines 279-314): the add pass with
interleaved validation, then, only when every token resolved, the removal
pass over the allow-list. -/
def services_to_synchronize (allowed : List (String × String)) (h : Hasync)
    (sync_services : StrOrList) : Hasync × Option String :=
  let toks := toTokenList sync_services
  match syncAddPass allowed toks h with
  | (h1, some e) => (h1, some e)
  | (h1, none) => (syncRemovePass toks allowed h1, none)

/- ------------------------------------------------------------------ -/
/- Driver (main, lines 317-421).                                      -/
/- ------------------------------------------------------------------ -/

/-- The typed module parameters of main (lines 322-334). -/
structure Params where
  synchronize_states : Bool
  synchronize_interface : String
  synchronize_peer_ip : Option String
  synchronize_config_to_ip : Option String
  remote_system_username : Option String
  remote_system_password : Option String
  services_to_synchronize : Option StrOrList

/-- Guarded interface step of main (lines 381-391): the handler runs only
for a truthy parameter. -/
def interfaceStep (fetched : List (String × String)) (h : Hasync) (tok : String) :
    Hasync × Option String :=
  if tok ≠ "" then synchronize_interface fetched h tok else (h, none)

/-- Guarded peer-ip step of main (lines 393-394): the handler runs only for
a truthy parameter. -/
def peerStep (h : Hasync) : Option String → Hasync
  | some s => if s ≠ "" then synchronize_peer_ip h s else h
  | none => h

/-- Guarded synchronize_states step of main (lines 378-379): the handler
runs only when the boolean parameter is true. -/
def statesStep (h : Hasync) (b : Bool) : Hasync :=
  if b then synchronize_states h b else h

/-- Guarded services step of main (lines 396-404): the handler runs only
when the parameter was supplied. -/
def servicesStep (allowed : List (String × String)) (h : Hasync) :
    Option StrOrList → Hasync × Option String
  | some svc => services_to_synchronize allowed h svc
  | none => (h, none)

/-- Driver main (lines 365-420) for one reconciliation run: bootstrap, then
the handlers in source order; any raised error aborts the run before save,
leaving the persisted record unchanged.  On success the final record is
returned together with the changed flag; changed is modelled from the spec
as "the record differs from the one the session was opened on", and commit
and apply happen exactly when it is true. -/
def main (fetched allowed : List (String × String)) (p : Params) (r : Record) :
    Except String (Record × Bool) :=
  match check_hasync_node fetched r with
  | (_, some e) => .error e
  | (h0, none) =>
    match interfaceStep fetched
        (statesStep
          (remote_system_synchronization h0 p.synchronize_config_to_ip
            p.remote_system_username p.remote_system_password)
          p.synchronize_states)
        p.synchronize_interface with
    | (_, some e) => .error e
    | (h3, none) =>
      match servicesStep allowed (peerStep h3 p.synchronize_peer_ip)
          p.services_to_synchronize with
      | (_, some e) => .error e
      | (h5, none) => .ok (some h5, decide (¬ (some h5 = r)))

/- ------------------------------------------------------------------ -/
/- Allow-list well-formedness.                                        -/
/- ------------------------------------------------------------------ -/

/-- The allow-list mappings are Python dicts, hence their keys are distinct. -/
def NodupKeys (l : List (String × String)) : Prop := (l.map Prod.fst).Nodup

/-- An allow-list is unambiguous when distinct entries never share a
description and no entry's description doubles as another entry's
identifier (an entry may still have identifier equal to its own
description). -/
def UnambiguousAllowList (allowed : List (String × String)) : Prop :=
  NodupKeys allowed ∧
    ∀ p ∈ allowed, ∀ q ∈ allowed, p ≠ q → p.2 ≠ q.2 ∧ p.2 ≠ q.1

/- ------------------------------------------------------------------ -/
/- Basic lemmas about the store primitives.                           -/
/- ------------------------------------------------------------------ -/

theorem findLeaf_eq_none_iff {h : Hasync} {tag : String} :
    findLeaf h tag = none ↔ tag ∉ h.map Prod.fst := by
  induction h with
  | nil => simp [findLeaf]
  | cons c rest ih =>
    by_cases hc : c.1 = tag
    · simp [findLeaf, hc]
    · simp [findLeaf, hc, ih, Ne.symm hc]

theorem findLeaf_setLeaf_eq (h : Hasync) (tag v : String) :
    findLeaf (setLeaf h tag v) tag = some v := by
  induction h with
  | nil => simp [setLeaf, findLeaf]
  | cons c rest ih =>
    by_cases hc : c.1 = tag
    · simp [setLeaf, hc, findLeaf]
    · simp [setLeaf, hc, findLeaf, ih]

theorem findLeaf_setLeaf_ne (h : Hasync) {t tag : String} (v : String) (hne : t ≠ tag) :
    findLeaf (setLeaf h tag v) t = findLeaf h t := by
  induction h with
  | nil => simp [setLeaf, findLeaf, Ne.symm hne]
  | cons c rest ih =>
    by_cases hc : c.1 = tag
    · subst hc
      simp [setLeaf, findLeaf, Ne.symm hne]
    · simp [setLeaf, hc, findLeaf, ih]

theorem setLeaf_of_findLeaf {h : Hasync} {tag v : String} (hf : findLeaf h tag = some v) :
    setLeaf h tag v = h := by
  induction h with
  | nil => simp [findLeaf] at hf
  | cons c rest ih =>
    obtain ⟨c1, c2⟩ := c
    by_cases hc : c1 = tag
    · subst hc
      simp [findLeaf] at hf
      simp [setLeaf, hf]
    · simp [findLeaf, hc] at hf
      simp [setLeaf, hc, ih hf]

theorem mapFst_setLeaf (h : Hasync) (tag v : String) :
    (setLeaf h tag v).map Prod.fst =
      if tag ∈ h.map Prod.fst then h.map Prod.fst else h.map Prod.fst ++ [tag] := by
  induction h with
  | nil => simp [setLeaf]
  | cons c rest ih =>
    by_cases hc : c.1 = tag
    · subst hc
      simp [setLeaf]
    · have hmem : (tag ∈ (c :: rest).map Prod.fst) = (tag ∈ rest.map Prod.fst) := by
        simp [Ne.symm hc]
      simp only [setLeaf, if_neg hc, List.map_cons, ih, hmem]
      by_cases hm : tag ∈ rest.map Prod.fst <;> simp [hm, Ne.symm hc]

theorem nodupTags_setLeaf {h : Hasync} (tag v : String) (hn : NodupTags h) :
    NodupTags (setLeaf h tag v) := by
  rw [NodupTags, mapFst_setLeaf]
  by_cases hm : tag ∈ h.map Prod.fst
  · rw [if_pos hm]
    exact hn
  · rw [if_neg hm, (List.perm_append_singleton tag (h.map Prod.fst)).nodup_iff,
      List.nodup_cons]
    exact ⟨hm, hn⟩

theorem eraseLeaf_sublist (h : Hasync) (tag : String) : (eraseLeaf h tag).Sublist h := by
  induction h with
  | nil => simp [eraseLeaf]
  | cons c rest ih =>
    by_cases hc : c.1 = tag
    · simp only [eraseLeaf, if_pos hc]
      exact List.sublist_cons_self c rest
    · simp only [eraseLeaf, if_neg hc]
      exact List.Sublist.cons₂ c ih

theorem nodupTags_eraseLeaf {h : Hasync} (tag : String) (hn : NodupTags h) :
    NodupTags (eraseLeaf h tag) :=
  List.Nodup.sublist (List.Sublist.map Prod.fst (eraseLeaf_sublist h tag)) hn

theorem findLeaf_eraseLeaf_ne (h : Hasync) {t tag : String} (hne : t ≠ tag) :
    findLeaf (eraseLeaf h tag) t = findLeaf h t := by
  induction h with
  | nil => simp [eraseLeaf]
  | cons c rest ih =>
    by_cases hc : c.1 = tag
    · subst hc
      simp [eraseLeaf, findLeaf, Ne.symm hne]
    · simp [eraseLeaf, hc, findLeaf, ih]

theorem eraseLeaf_of_findLeaf_none {h : Hasync} {tag : String}
    (hf : findLeaf h tag = none) : eraseLeaf h tag = h := by
  induction h with
  | nil => simp [eraseLeaf]
  | cons c rest ih =>
    by_cases hc : c.1 = tag
    · simp [findLeaf, hc] at hf
    · simp [findLeaf, hc] at hf
      simp [eraseLeaf, hc, ih hf]

theorem findLeaf_eraseLeaf_self {h : Hasync} {tag : String} (hn : NodupTags h) :
    findLeaf (eraseLeaf h tag) tag = none := by
  induction h with
  | nil => simp [eraseLeaf, findLeaf]
  | cons c rest ih =>
    simp only [NodupTags, List.map_cons, List.nodup_cons] at hn
    by_cases hc : c.1 = tag
    · subst hc
      simp only [eraseLeaf, if_pos rfl]
      rw [findLeaf_eq_none_iff]
      exact hn.1
    · simp [eraseLeaf, hc, findLeaf, ih hn.2]

theorem findLeaf_none_eraseLeaf {h : Hasync} {t : String} (tag : String)
    (hf : findLeaf h t = none) : findLeaf (eraseLeaf h tag) t = none := by
  rw [findLeaf_eq_none_iff] at hf ⊢
  intro hm
  exact hf (List.Sublist.mem hm (List.Sublist.map Prod.fst (eraseLeaf_sublist h tag)))

theorem findLeaf_append_some {h : Hasync} {t w : String} (l : Hasync)
    (hf : findLeaf h t = some w) : findLeaf (h ++ l) t = some w := by
  induction h with
  | nil => simp [findLeaf] at hf
  | cons c rest ih =>
    by_cases hc : c.1 = t
    · simp_all [findLeaf]
    · simp_all [findLeaf]

theorem findLeaf_append_none {h : Hasync} {t : String} (l : Hasync)
    (hf : findLeaf h t = none) : findLeaf (h ++ l) t = findLeaf l t := by
  induction h with
  | nil => simp [findLeaf]
  | cons c rest ih => by_cases hc : c.1 = t <;> simp_all [findLeaf]

/- ------------------------------------------------------------------ -/
/- Lemmas about service token resolution.                             -/
/- ------------------------------------------------------------------ -/

theorem hasKey_iff {l : List (String × String)} {k : String} :
    hasKey l k = true ↔ k ∈ l.map Prod.fst := by
  induction l with
  | nil => simp [hasKey]
  | cons p rest ih =>
    by_cases hp : p.1 = k
    · simp [hasKey, hp]
    · simp [hasKey, hp, ih, Ne.symm hp]

theorem hasDesc_iff {l : List (String × String)} {d : String} :
    hasDesc l d = true ↔ d ∈ l.map Prod.snd := by
  induction l with
  | nil => simp [hasDesc]
  | cons p rest ih =>
    by_cases hp : p.2 = d
    · simp [hasDesc, hp]
    · simp [hasDesc, hp, ih, Ne.symm hp]

theorem revLookup_mem {l : List (String × String)} {d k : String}
    (hr : revLookup l d = some k) : (k, d) ∈ l := by
  induction l with
  | nil => simp [revLookup] at hr
  | cons p rest ih =>
    simp only [revLookup] at hr
    cases hrest : revLookup rest d with
    | some k1 =>
      rw [hrest] at hr
      cases hr
      exact List.mem_cons_of_mem _ (ih hrest)
    | none =>
      rw [hrest] at hr
      by_cases hp : p.2 = d
      · rw [if_pos hp] at hr
        cases hr
        subst hp
        exact List.mem_cons_self p rest
      · rw [if_neg hp] at hr
        cases hr

theorem revLookup_isSome_of_mem {l : List (String × String)} {d : String}
    (hd : d ∈ l.map Prod.snd) : (revLookup l d).isSome := by
  induction l with
  | nil => simp at hd
  | cons p rest ih =>
    simp only [revLookup]
    cases hrest : revLookup rest d with
    | some k1 => simp
    | none =>
      simp only [List.map_cons, List.mem_cons] at hd
      rcases hd with hd | hd
      · simp [hd.symm]
      · have := ih hd
        rw [hrest] at this
        simp at this

theorem resolveService_mem {allowed : List (String × String)} {t sid : String}
    (hr : resolveService allowed t = some sid) : sid ∈ allowed.map Prod.fst := by
  unfold resolveService at hr
  by_cases hk : hasKey allowed t
  · rw [if_pos hk] at hr
    cases hr
    exact hasKey_iff.mp hk
  · rw [if_neg hk] at hr
    by_cases hd : hasDesc allowed t
    · rw [if_pos hd] at hr
      have := revLookup_mem hr
      exact List.mem_map_of_mem Prod.fst this
    · rw [if_neg hd] at hr
      cases hr

theorem resolveService_key {allowed : List (String × String)} {t : String}
    (hk : t ∈ allowed.map Prod.fst) : resolveService allowed t = some t := by
  unfold resolveService
  rw [if_pos (hasKey_iff.mpr hk)]

theorem resolveService_entry {allowed : List (String × String)} {t sid : String}
    (hr : resolveService allowed t = some sid) :
    ∃ d, (sid, d) ∈ allowed ∧ (t = sid ∨ t = d) := by
  unfold resolveService at hr
  by_cases hk : hasKey allowed t
  · rw [if_pos hk] at hr
    cases hr
    rcases List.mem_map.mp (hasKey_iff.mp hk) with ⟨p, hp, hfst⟩
    refine ⟨p.2, ?_, Or.inl rfl⟩
    have hpe : p = (t, p.2) := by rw [← hfst]
    rwa [hpe] at hp
  · rw [if_neg hk] at hr
    by_cases hd : hasDesc allowed t
    · rw [if_pos hd] at hr
      exact ⟨t, revLookup_mem hr, Or.inr rfl⟩
    · rw [if_neg hd] at hr
      cases hr

theorem resolveService_eq_none_iff {allowed : List (String × String)} {t : String} :
    resolveService allowed t = none ↔
      t ∉ allowed.map Prod.fst ∧ t ∉ allowed.map Prod.snd := by
  constructor
  · intro h2
    constructor
    · intro hm
      rw [resolveService_key hm] at h2
      cases h2
    · intro hm
      unfold resolveService at h2
      by_cases hk : hasKey allowed t
      · rw [if_pos hk] at h2
        cases h2
      · rw [if_neg hk, if_pos (hasDesc_iff.mpr hm)] at h2
        have hs := revLookup_isSome_of_mem (l := allowed) hm
        rw [h2] at hs
        simp at hs
  · rintro ⟨h1, h2⟩
    unfold resolveService
    rw [if_neg (fun hkk => h1 (hasKey_iff.mp hkk)),
      if_neg (fun hdd => h2 (hasDesc_iff.mp hdd))]

theorem resolveService_isSome_iff {allowed : List (String × String)} {t : String} :
    (resolveService allowed t).isSome ↔
      t ∈ allowed.map Prod.fst ∨ t ∈ allowed.map Prod.snd := by
  constructor
  · intro hs
    by_contra hc
    push_neg at hc
    rw [resolveService_eq_none_iff.mpr hc] at hs
    simp at hs
  · intro hm
    cases ho : resolveService allowed t with
    | some s => simp
    | none =>
      rcases resolveService_eq_none_iff.mp ho with ⟨h1, h2⟩
      rcases hm with hm | hm
      · exact absurd hm h1
      · exact absurd hm h2

theorem entry_unique_of_nodupKeys {l : List (String × String)} (hn : NodupKeys l)
    {k d1 d2 : String} (h1 : (k, d1) ∈ l) (h2 : (k, d2) ∈ l) : d1 = d2 := by
  induction l with
  | nil => simp at h1
  | cons p rest ih =>
    simp only [NodupKeys, List.map_cons, List.nodup_cons] at hn
    rcases List.mem_cons.mp h1 with e1 | e1 <;> rcases List.mem_cons.mp h2 with e2 | e2
    · rw [← e1] at e2
      have hx : d2 = d1 := by simpa using congrArg Prod.snd e2
      exact hx.symm
    · exfalso
      apply hn.1
      have hk1 : k = p.1 := congrArg Prod.fst e1
      rw [← hk1]
      exact List.mem_map_of_mem Prod.fst e2
    · exfalso
      apply hn.1
      have hk1 : k = p.1 := congrArg Prod.fst e2
      rw [← hk1]
      exact List.mem_map_of_mem Prod.fst e1
    · exact ih hn.2 e1 e2

theorem unambiguous_tail {p : String × String} {rest : List (String × String)}
    (hu : UnambiguousAllowList (p :: rest)) : UnambiguousAllowList rest := by
  obtain ⟨hn, hcond⟩ := hu
  simp only [NodupKeys, List.map_cons, List.nodup_cons] at hn
  exact ⟨hn.2, fun a ha b hb hne =>
    hcond a (List.mem_cons_of_mem _ ha) b (List.mem_cons_of_mem _ hb) hne⟩

theorem revLookup_unamb {allowed : List (String × String)} {id d : String}
    (hu : UnambiguousAllowList allowed) (hm : (id, d) ∈ allowed)
    (hk : d ∉ allowed.map Prod.fst) : revLookup allowed d = some id := by
  induction allowed with
  | nil => simp at hm
  | cons p rest ih =>
    have hn := hu.1
    simp only [NodupKeys, List.map_cons, List.nodup_cons] at hn
    rcases List.mem_cons.mp hm with he | he
    · subst he
      have hrest_none : revLookup rest d = none := by
        cases hr : revLookup rest d with
        | none => rfl
        | some k1 =>
          exfalso
          have hq := revLookup_mem hr
          have hpq : (id, d) ≠ (k1, d) := by
            intro he2
            apply hn.1
            have hik : id = k1 := congrArg Prod.fst he2
            rw [hik]
            exact List.mem_map_of_mem Prod.fst hq
          exact (hu.2 (id, d) (List.mem_cons_self _ _) (k1, d)
            (List.mem_cons_of_mem _ hq) hpq).1 rfl
      simp [revLookup, hrest_none]
    · have hk2 : d ∉ rest.map Prod.fst := fun hmm => hk (by simp [hmm])
      have hrest := ih (unambiguous_tail hu) he hk2
      simp only [revLookup, hrest]

theorem resolveService_desc_unamb {allowed : List (String × String)} {id d : String}
    (hu : UnambiguousAllowList allowed) (hm : (id, d) ∈ allowed) :
    resolveService allowed d = some id := by
  by_cases hk : d ∈ allowed.map Prod.fst
  · rcases List.mem_map.mp hk with ⟨q, hq, hqfst⟩
    by_cases hpq : (id, d) = q
    · have hid : id = d := by
        rw [← hpq] at hqfst
        exact hqfst
      rw [resolveService_key hk, hid]
    · exfalso
      have := (hu.2 (id, d) hm q hq hpq).2
      rw [hqfst] at this
      exact this rfl
  · have hd : d ∈ allowed.map Prod.snd := by simpa using List.mem_map_of_mem Prod.snd hm
    unfold resolveService
    rw [if_neg (fun hkk => hk (hasKey_iff.mp hkk)), if_pos (hasDesc_iff.mpr hd)]
    exact revLookup_unamb hu hm hk

theorem resolveService_unamb_char {allowed : List (String × String)} {id d : String}
    (hu : UnambiguousAllowList allowed) (hm : (id, d) ∈ allowed) (toks : List String) :
    (∃ t ∈ toks, resolveService allowed t = some id) ↔ (id ∈ toks ∨ d ∈ toks) := by
  constructor
  · rintro ⟨t, ht, hres⟩
    rcases resolveService_entry hres with ⟨d1, hmem1, hcase⟩
    have hd1 : d1 = d := entry_unique_of_nodupKeys hu.1 hmem1 hm
    rcases hcase with hcase | hcase
    · left
      rwa [← hcase]
    · right
      rw [hd1] at hcase
      rwa [← hcase]
  · rintro (ht | ht)
    · exact ⟨id, ht, resolveService_key (by simpa using List.mem_map_of_mem Prod.fst hm)⟩
    · exact ⟨d, ht, resolveService_desc_unamb hu hm⟩

/- ------------------------------------------------------------------ -/
/- Lemmas about the flag add pass.                                    -/
/- ------------------------------------------------------------------ -/

theorem famTag_inj {a b : String} (h : famTag a = famTag b) : a = b := by
  have hd := congrArg String.data h
  rw [famTag, famTag, String.data_append, String.data_append] at hd
  have hdd := List.append_cancel_left hd
  exact String.ext hdd

theorem findLeaf_append_single_ne (h : Hasync) {τ tag : String} (v : String)
    (hne : τ ≠ tag) : findLeaf (h ++ [(tag, v)]) τ = findLeaf h τ := by
  cases hf : findLeaf h τ with
  | some w => exact findLeaf_append_some _ hf
  | none =>
    rw [findLeaf_append_none _ hf]
    simp [findLeaf, Ne.symm hne]

theorem findLeaf_append_single_eq (h : Hasync) {tag : String} (v : String)
    (hf : findLeaf h tag = none) : findLeaf (h ++ [(tag, v)]) tag = some v := by
  rw [findLeaf_append_none _ hf]
  simp [findLeaf]

theorem nodupTags_append_absent {h : Hasync} {tag : String} (v : String)
    (hn : NodupTags h) (hf : findLeaf h tag = none) : NodupTags (h ++ [(tag, v)]) := by
  rw [NodupTags, List.map_append]
  simp only [List.map_cons, List.map_nil]
  rw [(List.perm_append_singleton tag (h.map Prod.fst)).nodup_iff, List.nodup_cons]
  exact ⟨findLeaf_eq_none_iff.mp hf, hn⟩

theorem syncAddPass_error_none (allowed : List (String × String)) (toks : List String)
    (h : Hasync) (hres : ∀ t ∈ toks, (resolveService allowed t).isSome) :
    (syncAddPass allowed toks h).2 = none := by
  induction toks generalizing h with
  | nil => rfl
  | cons t0 rest ih =>
    have ht := hres t0 (List.mem_cons_self t0 rest)
    cases hr : resolveService allowed t0 with
    | none =>
      rw [hr] at ht
      simp at ht
    | some sid =>
      have htail : ∀ t ∈ rest, (resolveService allowed t).isSome :=
        fun t' ht' => hres t' (List.mem_cons_of_mem _ ht')
      simp only [syncAddPass, hr]
      by_cases hf : findLeaf h (famTag sid) = none
      · rw [if_pos hf]
        exact ih _ htail
      · rw [if_neg hf]
        exact ih _ htail

theorem syncAddPass_ext (allowed : List (String × String)) (toks : List String)
    (h : Hasync) : ∃ ext, (syncAddPass allowed toks h).1 = h ++ ext := by
  induction toks generalizing h with
  | nil => exact ⟨[], by simp [syncAddPass]⟩
  | cons t0 rest ih =>
    cases hr : resolveService allowed t0 with
    | none => exact ⟨[], by simp [syncAddPass, hr]⟩
    | some sid =>
      by_cases hf : findLeaf h (famTag sid) = none
      · rcases ih (h ++ [(famTag sid, "on")]) with ⟨ext, hext⟩
        refine ⟨(famTag sid, "on") :: ext, ?_⟩
        simp only [syncAddPass, hr, if_pos hf, hext, List.append_assoc,
          List.singleton_append]
      · rcases ih h with ⟨ext, hext⟩
        refine ⟨ext, ?_⟩
        simp only [syncAddPass, hr, if_neg hf, hext]

theorem findLeaf_syncAddPass_some (allowed : List (String × String)) (toks : List String)
    {h : Hasync} {τ w : String} (hf : findLeaf h τ = some w) :
    findLeaf (syncAddPass allowed toks h).1 τ = some w := by
  rcases syncAddPass_ext allowed toks h with ⟨ext, hext⟩
  rw [hext]
  exact findLeaf_append_some _ hf

theorem findLeaf_syncAddPass_flag (allowed : List (String × String)) (toks : List String)
    (h : Hasync) (hres : ∀ t ∈ toks, (resolveService allowed t).isSome)
    {t sid : String} (ht : t ∈ toks) (hr : resolveService allowed t = some sid) :
    (findLeaf (syncAddPass allowed toks h).1 (famTag sid)).isSome := by
  induction toks generalizing h with
  | nil => simp at ht
  | cons t0 rest ih =>
    have htail : ∀ t' ∈ rest, (resolveService allowed t').isSome :=
      fun t' ht' => hres t' (List.mem_cons_of_mem _ ht')
    rcases List.mem_cons.mp ht with he | he
    · subst he
      simp only [syncAddPass, hr]
      by_cases hf : findLeaf h (famTag sid) = none
      · rw [if_pos hf]
        rw [findLeaf_syncAddPass_some allowed rest (findLeaf_append_single_eq h "on" hf)]
        simp
      · rw [if_neg hf]
        rcases Option.ne_none_iff_exists.mp hf with ⟨w, hw⟩
        rw [findLeaf_syncAddPass_some allowed rest hw.symm]
        simp
    · have ht0 := hres t0 (List.mem_cons_self t0 rest)
      cases hr0 : resolveService allowed t0 with
      | none =>
        rw [hr0] at ht0
        simp at ht0
      | some sid0 =>
        simp only [syncAddPass, hr0]
        by_cases hf : findLeaf h (famTag sid0) = none
        · rw [if_pos hf]
          exact ih _ htail he
        · rw [if_neg hf]
          exact ih _ htail he

theorem findLeaf_syncAddPass_preserve (allowed : List (String × String))
    (toks : List String) (h : Hasync) {τ : String}
    (hτ : ∀ id ∈ allowed.map Prod.fst, τ ≠ famTag id) :
    findLeaf (syncAddPass allowed toks h).1 τ = findLeaf h τ := by
  induction toks generalizing h with
  | nil => rfl
  | cons t0 rest ih =>
    cases hr0 : resolveService allowed t0 with
    | none => simp only [syncAddPass, hr0]
    | some sid0 =>
      have hne : τ ≠ famTag sid0 := hτ sid0 (resolveService_mem hr0)
      simp only [syncAddPass, hr0]
      by_cases hf : findLeaf h (famTag sid0) = none
      · rw [if_pos hf, ih (h ++ [(famTag sid0, "on")]),
          findLeaf_append_single_ne h "on" hne]
      · rw [if_neg hf, ih h]

theorem nodupTags_syncAddPass (allowed : List (String × String)) (toks : List String)
    {h : Hasync} (hn : NodupTags h) : NodupTags (syncAddPass allowed toks h).1 := by
  induction toks generalizing h with
  | nil => exact hn
  | cons t0 rest ih =>
    cases hr0 : resolveService allowed t0 with
    | none =>
      simp only [syncAddPass, hr0]
      exact hn
    | some sid0 =>
      simp only [syncAddPass, hr0]
      by_cases hf : findLeaf h (famTag sid0) = none
      · rw [if_pos hf]
        exact ih (nodupTags_append_absent "on" hn hf)
      · rw [if_neg hf]
        exact ih hn

theorem findLeaf_syncAddPass_isSome_iff (allowed : List (String × String))
    (toks : List String) (h : Hasync) (τ : String)
    (hres : ∀ t ∈ toks, (resolveService allowed t).isSome) :
    (findLeaf (syncAddPass allowed toks h).1 τ).isSome ↔
      ((findLeaf h τ).isSome ∨
        ∃ t ∈ toks, ∃ sid, resolveService allowed t = some sid ∧ τ = famTag sid) := by
  induction toks generalizing h with
  | nil => simp [syncAddPass]
  | cons t0 rest ih =>
    have ht0 := hres t0 (List.mem_cons_self t0 rest)
    have htail : ∀ t' ∈ rest, (resolveService allowed t').isSome :=
      fun t' ht' => hres t' (List.mem_cons_of_mem _ ht')
    cases hr0 : resolveService allowed t0 with
    | none =>
      rw [hr0] at ht0
      simp at ht0
    | some sid0 =>
      simp only [syncAddPass, hr0]
      by_cases hf : findLeaf h (famTag sid0) = none
      · rw [if_pos hf, ih _ htail]
        by_cases hττ : τ = famTag sid0
        · subst hττ
          rw [findLeaf_append_single_eq h "on" hf]
          simp only [Option.isSome_some, true_or, true_iff, iff_true]
          exact Or.inr ⟨t0, List.mem_cons_self t0 rest, sid0, hr0, rfl⟩
        · rw [findLeaf_append_single_ne h "on" hττ]
          constructor
          · rintro (hh | ⟨t, ht, sid, hrt, hτsid⟩)
            · exact Or.inl hh
            · exact Or.inr ⟨t, List.mem_cons_of_mem _ ht, sid, hrt, hτsid⟩
          · rintro (hh | ⟨t, ht, sid, hrt, hτsid⟩)
            · exact Or.inl hh
            · rcases List.mem_cons.mp ht with he | he
              · subst he
                rw [hr0] at hrt
                cases hrt
                exact absurd hτsid hττ
              · exact Or.inr ⟨t, he, sid, hrt, hτsid⟩
      · rw [if_neg hf, ih _ htail]
        constructor
        · rintro (hh | ⟨t, ht, sid, hrt, hτsid⟩)
          · exact Or.inl hh
          · exact Or.inr ⟨t, List.mem_cons_of_mem _ ht, sid, hrt, hτsid⟩
        · rintro (hh | ⟨t, ht, sid, hrt, hτsid⟩)
          · exact Or.inl hh
          · rcases List.mem_cons.mp ht with he | he
            · subst he
              rw [hr0] at hrt
              cases hrt
              subst hτsid
              left
              exact Option.isSome_iff_ne_none.mpr hf
            · exact Or.inr ⟨t, he, sid, hrt, hτsid⟩

theorem syncAddPass_fixpoint (allowed : List (String × String)) (toks : List String)
    (h : Hasync)
    (hfix : ∀ t ∈ toks, ∃ sid, resolveService allowed t = some sid ∧
      findLeaf h (famTag sid) ≠ none) :
    syncAddPass allowed toks h = (h, none) := by
  induction toks with
  | nil => rfl
  | cons t0 rest ih =>
    rcases hfix t0 (List.mem_cons_self t0 rest) with ⟨sid0, hr0, hne0⟩
    simp only [syncAddPass, hr0, if_neg hne0]
    exact ih (fun t' ht' => hfix t' (List.mem_cons_of_mem _ ht'))

/- ------------------------------------------------------------------ -/
/- Lemmas about the flag removal pass.                                -/
/- ------------------------------------------------------------------ -/

theorem nodupTags_syncRemoveStep (toks : List String) {h : Hasync}
    (p : String × String) (hn : NodupTags h) : NodupTags (syncRemoveStep toks h p) := by
  unfold syncRemoveStep
  split
  · exact nodupTags_eraseLeaf _ hn
  · exact hn

theorem findLeaf_none_syncRemoveStep (toks : List String) {h : Hasync}
    (p : String × String) {τ : String} (hf : findLeaf h τ = none) :
    findLeaf (syncRemoveStep toks h p) τ = none := by
  unfold syncRemoveStep
  split
  · exact findLeaf_none_eraseLeaf _ hf
  · exact hf

theorem findLeaf_syncRemovePass_preserve_of_ne (toks : List String)
    (l : List (String × String)) (h : Hasync) {τ : String}
    (hτ : ∀ r ∈ l, τ ≠ famTag r.1) :
    findLeaf (syncRemovePass toks l h) τ = findLeaf h τ := by
  induction l generalizing h with
  | nil => rfl
  | cons q rest ih =>
    have hq : τ ≠ famTag q.1 := hτ q (List.mem_cons_self q rest)
    have hstep : findLeaf (syncRemoveStep toks h q) τ = findLeaf h τ := by
      unfold syncRemoveStep
      split
      · exact findLeaf_eraseLeaf_ne h hq
      · rfl
    rw [syncRemovePass, ih _ (fun r hr => hτ r (List.mem_cons_of_mem _ hr)), hstep]

theorem findLeaf_none_syncRemovePass (toks : List String) (l : List (String × String))
    {h : Hasync} {τ : String} (hf : findLeaf h τ = none) :
    findLeaf (syncRemovePass toks l h) τ = none := by
  induction l generalizing h with
  | nil => exact hf
  | cons q rest ih =>
    rw [syncRemovePass]
    exact ih (findLeaf_none_syncRemoveStep toks q hf)

theorem nodupTags_syncRemovePass (toks : List String) (l : List (String × String))
    {h : Hasync} (hn : NodupTags h) : NodupTags (syncRemovePass toks l h) := by
  induction l generalizing h with
  | nil => exact hn
  | cons q rest ih =>
    rw [syncRemovePass]
    exact ih (nodupTags_syncRemoveStep toks q hn)

theorem findLeaf_syncRemovePass_removed (toks : List String)
    (l : List (String × String)) {h : Hasync} (hn : NodupTags h)
    {p : String × String} (hp : p ∈ l) (h1 : p.1 ∉ toks) (h2 : p.2 ∉ toks) :
    findLeaf (syncRemovePass toks l h) (famTag p.1) = none := by
  induction l generalizing h with
  | nil => simp at hp
  | cons q rest ih =>
    rcases List.mem_cons.mp hp with he | he
    · subst he
      rw [syncRemovePass]
      have hstep : findLeaf (syncRemoveStep toks h p) (famTag p.1) = none := by
        unfold syncRemoveStep
        by_cases hf : findLeaf h (famTag p.1) = none
        · rw [if_neg]
          · exact hf
          · intro hc
            exact hc.2.2 hf
        · rw [if_pos ⟨h1, h2, hf⟩]
          exact findLeaf_eraseLeaf_self hn
      exact findLeaf_none_syncRemovePass toks rest hstep
    · rw [syncRemovePass]
      exact ih (nodupTags_syncRemoveStep toks q hn) he

theorem findLeaf_syncRemovePass_kept (toks : List String)
    {l : List (String × String)} (hnk : NodupKeys l) (h : Hasync)
    {p : String × String} (hp : p ∈ l) (hcond : p.1 ∈ toks ∨ p.2 ∈ toks) :
    findLeaf (syncRemovePass toks l h) (famTag p.1) = findLeaf h (famTag p.1) := by
  induction l generalizing h with
  | nil => simp at hp
  | cons q rest ih =>
    simp only [NodupKeys, List.map_cons, List.nodup_cons] at hnk
    rcases List.mem_cons.mp hp with he | he
    · subst he
      rw [syncRemovePass]
      have hstep : syncRemoveStep toks h p = h := by
        unfold syncRemoveStep
        rw [if_neg]
        intro hc
        rcases hcond with hcond | hcond
        · exact hc.1 hcond
        · exact hc.2.1 hcond
      rw [hstep]
      refine findLeaf_syncRemovePass_preserve_of_ne toks rest h (fun r hr hfam => ?_)
      have : p.1 = r.1 := famTag_inj hfam
      exact hnk.1 (this ▸ List.mem_map_of_mem Prod.fst hr)
    · have hne : famTag p.1 ≠ famTag q.1 := by
        intro hfam
        have hpq : p.1 = q.1 := famTag_inj hfam
        exact hnk.1 (hpq ▸ List.mem_map_of_mem Prod.fst he)
      rw [syncRemovePass]
      have hstep : findLeaf (syncRemoveStep toks h q) (famTag p.1) =
          findLeaf h (famTag p.1) := by
        unfold syncRemoveStep
        split
        · exact findLeaf_eraseLeaf_ne h hne
        · rfl
      rw [ih hnk.2 _ he, hstep]

theorem syncRemovePass_fixpoint (toks : List String) (l : List (String × String))
    (h : Hasync)
    (hfix : ∀ p ∈ l, (p.1 ∈ toks ∨ p.2 ∈ toks) ∨ findLeaf h (famTag p.1) = none) :
    syncRemovePass toks l h = h := by
  induction l with
  | nil => rfl
  | cons q rest ih =>
    have hstep : syncRemoveStep toks h q = h := by
      unfold syncRemoveStep
      rw [if_neg]
      intro hc
      rcases hfix q (List.mem_cons_self q rest) with hcond | hcond
      · rcases hcond with hcond | hcond
        · exact hc.1 hcond
        · exact hc.2.1 hcond
      · exact hc.2.2 hcond
    rw [syncRemovePass, hstep]
    exact ih (fun p hp => hfix p (List.mem_cons_of_mem _ hp))

/- ------------------------------------------------------------------ -/
/- Composition lemmas for services_to_synchronize.                    -/
/- ------------------------------------------------------------------ -/

theorem services_to_synchronize_ok (allowed : List (String × String))
    (toks : List String) (h : Hasync)
    (hres : ∀ t ∈ toks, (resolveService allowed t).isSome) :
    services_to_synchronize allowed h (.list toks) =
      (syncRemovePass toks allowed (syncAddPass allowed toks h).1, none) := by
  have h2 := syncAddPass_error_none allowed toks h hres
  unfold services_to_synchronize
  cases hap : syncAddPass allowed toks h with
  | mk h1 e =>
    rw [hap] at h2
    simp only at h2
    subst h2
    simp only [toTokenList, hap]

theorem services_flag_present (allowed : List (String × String)) (toks : List String)
    (h : Hasync) (hnk : NodupKeys allowed)
    (hres : ∀ t' ∈ toks, (resolveService allowed t').isSome)
    {t sid : String} (ht : t ∈ toks) (hr : resolveService allowed t = some sid) :
    findLeaf (services_to_synchronize allowed h (.list toks)).1 (famTag sid) ≠ none := by
  rw [services_to_synchronize_ok allowed toks h hres]
  rcases resolveService_entry hr with ⟨d, hmem, hcase⟩
  have hcond : (sid, d).1 ∈ toks ∨ (sid, d).2 ∈ toks := by
    rcases hcase with hc | hc
    · left
      rwa [← hc]
    · right
      rwa [← hc]
  have hkept := findLeaf_syncRemovePass_kept toks hnk
    (syncAddPass allowed toks h).1 hmem hcond
  simp only at hkept
  rw [hkept]
  have := findLeaf_syncAddPass_flag allowed toks h hres ht hr
  exact Option.isSome_iff_ne_none.mp this

theorem services_flag_absent (allowed : List (String × String)) (toks : List String)
    (h : Hasync) (hn : NodupTags h)
    (hres : ∀ t' ∈ toks, (resolveService allowed t').isSome)
    {p : String × String} (hp : p ∈ allowed) (h1 : p.1 ∉ toks) (h2 : p.2 ∉ toks) :
    findLeaf (services_to_synchronize allowed h (.list toks)).1 (famTag p.1) = none := by
  rw [services_to_synchronize_ok allowed toks h hres]
  exact findLeaf_syncRemovePass_removed toks allowed
    (nodupTags_syncAddPass allowed toks hn) hp h1 h2

theorem services_preserve_other (allowed : List (String × String)) (toks : List String)
    (h : Hasync) (hres : ∀ t' ∈ toks, (resolveService allowed t').isSome)
    {τ : String} (hτ : ∀ id ∈ allowed.map Prod.fst, τ ≠ famTag id) :
    findLeaf (services_to_synchronize allowed h (.list toks)).1 τ = findLeaf h τ := by
  rw [services_to_synchronize_ok allowed toks h hres]
  rw [findLeaf_syncRemovePass_preserve_of_ne toks allowed _
    (fun r hr => hτ r.1 (List.mem_map_of_mem Prod.fst hr))]
  exact findLeaf_syncAddPass_preserve allowed toks h hτ

theorem nodupTags_services (allowed : List (String × String)) (toks : List String)
    (h : Hasync) (hn : NodupTags h)
    (hres : ∀ t' ∈ toks, (resolveService allowed t').isSome) :
    NodupTags (services_to_synchronize allowed h (.list toks)).1 := by
  rw [services_to_synchronize_ok allowed toks h hres]
  exact nodupTags_syncRemovePass toks allowed (nodupTags_syncAddPass allowed toks hn)

theorem services_to_synchronize_fixpoint (allowed : List (String × String))
    (toks : List String) (h : Hasync)
    (hadd : ∀ t ∈ toks, ∃ sid, resolveService allowed t = some sid ∧
      findLeaf h (famTag sid) ≠ none)
    (hrem : ∀ p ∈ allowed, (p.1 ∈ toks ∨ p.2 ∈ toks) ∨ findLeaf h (famTag p.1) = none) :
    services_to_synchronize allowed h (.list toks) = (h, none) := by
  unfold services_to_synchronize
  simp only [toTokenList]
  rw [syncAddPass_fixpoint allowed toks h hadd]
  simp only
  rw [syncRemovePass_fixpoint toks allowed h hrem]

theorem syncAddPass_none_resolvable (allowed : List (String × String))
    (toks : List String) (h : Hasync)
    (hok : (syncAddPass allowed toks h).2 = none) :
    ∀ t ∈ toks, (resolveService allowed t).isSome := by
  induction toks generalizing h with
  | nil => simp
  | cons t0 rest ih =>
    intro t ht
    cases hr0 : resolveService allowed t0 with
    | none =>
      rw [show syncAddPass allowed (t0 :: rest) h =
        (h, some (serviceErrMsg allowed t0)) from by
          simp only [syncAddPass, hr0]] at hok
      simp at hok
    | some sid0 =>
      rcases List.mem_cons.mp ht with he | he
      · subst he
        simp [hr0]
      · simp only [syncAddPass, hr0] at hok
        by_cases hf : findLeaf h (famTag sid0) = none
        · rw [if_pos hf] at hok
          exact ih _ hok t he
        · rw [if_neg hf] at hok
          exact ih _ hok t he

theorem services_ok_resolvable (allowed : List (String × String)) (toks : List String)
    (h : Hasync) {h5 : Hasync}
    (hok : services_to_synchronize allowed h (.list toks) = (h5, none)) :
    ∀ t ∈ toks, (resolveService allowed t).isSome := by
  apply syncAddPass_none_resolvable allowed toks h
  unfold services_to_synchronize at hok
  simp only [toTokenList] at hok
  cases hap : syncAddPass allowed toks h with
  | mk h1 e =>
    rw [hap] at hok
    cases e with
    | none => rfl
    | some msg => simp at hok

/-- Any services argument behaves as its normalised token list. -/
theorem services_str_eq_list (allowed : List (String × String)) (h : Hasync)
    (svc : StrOrList) :
    services_to_synchronize allowed h svc =
      services_to_synchronize allowed h (.list (toTokenList svc)) := by
  cases svc <;> rfl

/- ------------------------------------------------------------------ -/
/- Lemmas about the scalar handlers.                                  -/
/- ------------------------------------------------------------------ -/

theorem findLeaf_setIfTruthy_self (h : Hasync) (tag : String) (v : Option String) :
    findLeaf (setIfTruthy h tag v) tag =
      (match v with
       | some s => if s ≠ "" then some s else findLeaf h tag
       | none => findLeaf h tag) := by
  cases v with
  | none => rfl
  | some s =>
    by_cases hs : s = ""
    · simp [setIfTruthy, hs]
    · simp [setIfTruthy, hs, findLeaf_setLeaf_eq]

theorem findLeaf_setIfTruthy_ne (h : Hasync) {τ tag : String} (v : Option String)
    (hne : τ ≠ tag) : findLeaf (setIfTruthy h tag v) τ = findLeaf h τ := by
  cases v with
  | none => rfl
  | some s =>
    by_cases hs : s = ""
    · simp [setIfTruthy, hs]
    · simp [setIfTruthy, hs, findLeaf_setLeaf_ne h s hne]

theorem setIfTruthy_fixpoint {h : Hasync} {tag : String} {v : Option String}
    (hv : ∀ s, v = some s → s ≠ "" → findLeaf h tag = some s) :
    setIfTruthy h tag v = h := by
  cases v with
  | none => rfl
  | some s =>
    by_cases hs : s = ""
    · simp [setIfTruthy, hs]
    · simp only [setIfTruthy, if_pos hs]
      exact setLeaf_of_findLeaf (hv s rfl hs)

theorem nodupTags_setIfTruthy {h : Hasync} (tag : String) (v : Option String)
    (hn : NodupTags h) : NodupTags (setIfTruthy h tag v) := by
  cases v with
  | none => exact hn
  | some s =>
    by_cases hs : s = ""
    · simpa [setIfTruthy, hs] using hn
    · simp only [setIfTruthy, if_pos hs]
      exact nodupTags_setLeaf tag s hn

theorem nodupTags_remote {h : Hasync} (url user pass : Option String)
    (hn : NodupTags h) :
    NodupTags (remote_system_synchronization h url user pass) :=
  nodupTags_setIfTruthy _ _ (nodupTags_setIfTruthy _ _ (nodupTags_setIfTruthy _ _ hn))

theorem findLeaf_remote_other (h : Hasync) (url user pass : Option String) {τ : String}
    (h1 : τ ≠ "synchronize_config_to_ip") (h2 : τ ≠ "remote_system_username")
    (h3 : τ ≠ "remote_system_password") :
    findLeaf (remote_system_synchronization h url user pass) τ = findLeaf h τ := by
  unfold remote_system_synchronization
  rw [findLeaf_setIfTruthy_ne _ _ h3, findLeaf_setIfTruthy_ne _ _ h2,
    findLeaf_setIfTruthy_ne _ _ h1]

theorem remote_fixpoint {h : Hasync} {url user pass : Option String}
    (h1 : ∀ s, url = some s → s ≠ "" → findLeaf h "synchronize_config_to_ip" = some s)
    (h2 : ∀ s, user = some s → s ≠ "" → findLeaf h "remote_system_username" = some s)
    (h3 : ∀ s, pass = some s → s ≠ "" → findLeaf h "remote_system_password" = some s) :
    remote_system_synchronization h url user pass = h := by
  unfold remote_system_synchronization
  rw [setIfTruthy_fixpoint h1, setIfTruthy_fixpoint h2, setIfTruthy_fixpoint h3]

theorem nodupTags_synchronize_states {h : Hasync} (b : Bool) (hn : NodupTags h) :
    NodupTags (synchronize_states h b) := by
  unfold synchronize_states
  split
  · exact nodupTags_setLeaf _ _ hn
  · split
    · exact nodupTags_eraseLeaf _ hn
    · exact hn

theorem findLeaf_synchronize_states_other (h : Hasync) (b : Bool) {τ : String}
    (hne : τ ≠ "synchronize_states") :
    findLeaf (synchronize_states h b) τ = findLeaf h τ := by
  unfold synchronize_states
  split
  · exact findLeaf_setLeaf_ne h _ hne
  · split
    · exact findLeaf_eraseLeaf_ne h hne
    · rfl

theorem nodupTags_statesStep {h : Hasync} (b : Bool) (hn : NodupTags h) :
    NodupTags (statesStep h b) := by
  unfold statesStep
  split
  · exact nodupTags_synchronize_states b hn
  · exact hn

theorem findLeaf_statesStep_other (h : Hasync) (b : Bool) {τ : String}
    (hne : τ ≠ "synchronize_states") :
    findLeaf (statesStep h b) τ = findLeaf h τ := by
  unfold statesStep
  split
  · exact findLeaf_synchronize_states_other h b hne
  · rfl

theorem statesStep_present (h : Hasync)
    (hp : findLeaf h "synchronize_states" ≠ none) :
    statesStep h true = h := by
  unfold statesStep synchronize_states
  rw [if_pos rfl, if_neg (fun hc => hp hc.2), if_neg (fun hc => hc.1 rfl)]

theorem findLeaf_statesStep_true (h : Hasync) :
    findLeaf (statesStep h true) "synchronize_states" ≠ none := by
  unfold statesStep synchronize_states
  rw [if_pos rfl]
  by_cases hf : findLeaf h "synchronize_states" = none
  · rw [if_pos ⟨rfl, hf⟩, findLeaf_setLeaf_eq]
    simp
  · rw [if_neg (fun hc => hf hc.2), if_neg (fun hc => hc.1 rfl)]
    exact hf

theorem nodupTags_peerStep {h : Hasync} (v : Option String) (hn : NodupTags h) :
    NodupTags (peerStep h v) := by
  cases v with
  | none => exact hn
  | some s =>
    simp only [peerStep]
    by_cases hs : s = ""
    · rw [if_neg (fun hne => hne hs)]
      exact hn
    · rw [if_pos hs]
      unfold synchronize_peer_ip
      rw [if_pos hs]
      exact nodupTags_setLeaf _ _ hn

theorem findLeaf_peerStep_other (h : Hasync) (v : Option String) {τ : String}
    (hne : τ ≠ "synchronize_peer_ip") :
    findLeaf (peerStep h v) τ = findLeaf h τ := by
  cases v with
  | none => rfl
  | some s =>
    simp only [peerStep]
    by_cases hs : s = ""
    · rw [if_neg (fun hne2 => hne2 hs)]
    · rw [if_pos hs]
      unfold synchronize_peer_ip
      rw [if_pos hs]
      exact findLeaf_setLeaf_ne h _ hne

theorem peerStep_truthy {h : Hasync} {s : String} (hs : s ≠ "") :
    peerStep h (some s) = setLeaf h "synchronize_peer_ip" s := by
  simp only [peerStep]
  rw [if_pos hs]
  unfold synchronize_peer_ip
  rw [if_pos hs]

/- ------------------------------------------------------------------ -/
/- Lemmas about interface token resolution.                           -/
/- ------------------------------------------------------------------ -/

theorem findInterface_congr (l : List (String × String)) {t1 t2 : String}
    (ht : strLower t1 = strLower t2) : findInterface l t1 = findInterface l t2 := by
  induction l with
  | nil => rfl
  | cons p rest ih =>
    simp only [findInterface, ht, ih]

theorem findInterface_eq_none_iff (l : List (String × String)) (t : String) :
    findInterface l t = none ↔
      ∀ p ∈ l, ¬(strLower t = strLower p.1 ∨ strLower t = strLower p.2) := by
  induction l with
  | nil => simp [findInterface]
  | cons p rest ih =>
    by_cases hc : strLower t = strLower p.1 ∨ strLower t = strLower p.2
    · simp only [findInterface, if_pos hc]
      constructor
      · intro hcontra
        cases hcontra
      · intro hall
        exact absurd hc (hall p (List.mem_cons_self p rest))
    · simp only [findInterface, if_neg hc, ih]
      constructor
      · intro hall q hq
        rcases List.mem_cons.mp hq with he | he
        · subst he
          exact hc
        · exact hall q he
      · intro hall q hq
        exact hall q (List.mem_cons_of_mem _ hq)

theorem findInterface_some_match (l : List (String × String)) (t id : String)
    (hf : findInterface l t = some id) :
    ∃ p ∈ l, p.1 = id ∧ (strLower t = strLower p.1 ∨ strLower t = strLower p.2) := by
  induction l with
  | nil => simp [findInterface] at hf
  | cons p rest ih =>
    by_cases hc : strLower t = strLower p.1 ∨ strLower t = strLower p.2
    · simp only [findInterface, if_pos hc] at hf
      cases hf
      exact ⟨p, List.mem_cons_self p rest, rfl, hc⟩
    · simp only [findInterface, if_neg hc] at hf
      rcases ih hf with ⟨q, hq, hqid, hqc⟩
      exact ⟨q, List.mem_cons_of_mem _ hq, hqid, hqc⟩

/- ------------------------------------------------------------------ -/
/- Claim theorems.                                                    -/
/- ------------------------------------------------------------------ -/

/-- C10: when the services_to_synchronize argument is a single string rather
than a list, the flag-set reconciliation treats it as the one-element list
containing that string and behaves identically to that singleton list. -/
theorem C10_string_becomes_singleton (allowed : List (String × String)) (h : Hasync)
    (s : String) :
    services_to_synchronize allowed h (.str s) =
      services_to_synchronize allowed h (.list [s]) := rfl

/-- C6: the synchronize_states leaf is presence-encoded: the handler stores
"on" exactly when the desired value is true and the leaf was absent, removes
the leaf exactly when the desired value is false and it was present, leaves
every other tag untouched, and never stores any value other than "on" (the
text after the call is none, "on", or the unchanged previous text). -/
theorem C6_synchronize_states_presence (h : Hasync) (b : Bool) (hn : NodupTags h) :
    (findLeaf (synchronize_states h b) "synchronize_states" =
      if b then some ((findLeaf h "synchronize_states").getD "on") else none) ∧
    (∀ τ, τ ≠ "synchronize_states" →
      findLeaf (synchronize_states h b) τ = findLeaf h τ) ∧
    (b = true → findLeaf h "synchronize_states" ≠ none → synchronize_states h b = h) ∧
    (b = false → findLeaf h "synchronize_states" = none → synchronize_states h b = h) ∧
    ((findLeaf h "synchronize_states" = none ∨
        findLeaf h "synchronize_states" = some "on") →
      (findLeaf (synchronize_states h b) "synchronize_states" = none ∨
        findLeaf (synchronize_states h b) "synchronize_states" = some "on")) := by
  have hfix_true : findLeaf h "synchronize_states" ≠ none →
      synchronize_states h true = h := by
    intro hne
    unfold synchronize_states
    rw [if_neg (fun hc => hne hc.2), if_neg (fun hc => hc.1 rfl)]
  have hfix_false : findLeaf h "synchronize_states" = none →
      synchronize_states h false = h := by
    intro hf
    unfold synchronize_states
    rw [if_neg (fun hc => absurd hc.1 (by decide)), if_neg (fun hc => hc.2 hf)]
  have hset : findLeaf h "synchronize_states" = none →
      synchronize_states h true = setLeaf h "synchronize_states" "on" := by
    intro hf
    unfold synchronize_states
    rw [if_pos ⟨rfl, hf⟩]
  have herase : findLeaf h "synchronize_states" ≠ none →
      synchronize_states h false = eraseLeaf h "synchronize_states" := by
    intro hne
    unfold synchronize_states
    rw [if_neg (fun hc => absurd hc.1 (by decide)), if_pos ⟨by decide, hne⟩]
  refine ⟨?_, fun τ hτ => findLeaf_synchronize_states_other h b hτ, ?_, ?_, ?_⟩
  · cases b with
    | false =>
      rw [if_neg (by decide)]
      by_cases hf : findLeaf h "synchronize_states" = none
      · rw [hfix_false hf]
        exact hf
      · rw [herase hf]
        exact findLeaf_eraseLeaf_self hn
    | true =>
      rw [if_pos rfl]
      by_cases hf : findLeaf h "synchronize_states" = none
      · rw [hset hf, findLeaf_setLeaf_eq, hf]
        rfl
      · rw [hfix_true hf]
        rcases Option.ne_none_iff_exists.mp hf with ⟨w, hw⟩
        rw [← hw]
        rfl
  · intro hb hne
    subst hb
    exact hfix_true hne
  · intro hb hf
    subst hb
    exact hfix_false hf
  · intro hor
    cases b with
    | true =>
      by_cases hf : findLeaf h "synchronize_states" = none
      · right
        rw [hset hf, findLeaf_setLeaf_eq]
      · rw [hfix_true hf]
        rcases hor with h1 | h1
        · exact absurd h1 hf
        · exact Or.inr h1
    | false =>
      by_cases hf : findLeaf h "synchronize_states" = none
      · left
        rw [hfix_false hf]
        exact hf
      · left
        rw [herase hf]
        exact findLeaf_eraseLeaf_self hn

/-- Witness for C6 at a concrete input. -/
theorem C6_witness :
    findLeaf (synchronize_states [] true) "synchronize_states" =
      if true then some ((findLeaf ([] : Hasync) "synchronize_states").getD "on")
      else none :=
  (C6_synchronize_states_presence [] true (by simp [NodupTags])).1

/-- C5: check_hasync_node is idempotent: with the HA block present it
performs no mutation; with the block absent it creates it, initialises the
interface to the canonical identifier resolved from the fixed default "lan",
and leaves synchronize_config_to_ip, remote_system_username and
remote_system_password cleared (absent). -/
theorem C5_check_hasync_node_bootstrap (fetched : List (String × String)) (r : Record)
    (ident : String) (hres : resolveInterface fetched "lan" = some ident) :
    (∀ h, r = some h → check_hasync_node fetched r = (h, none)) ∧
    (r = none →
      check_hasync_node fetched r = ([("synchronize_interface", ident)], none) ∧
      findLeaf (check_hasync_node fetched r).1 "synchronize_config_to_ip" = none ∧
      findLeaf (check_hasync_node fetched r).1 "remote_system_username" = none ∧
      findLeaf (check_hasync_node fetched r).1 "remote_system_password" = none ∧
      findLeaf (check_hasync_node fetched r).1 "synchronize_interface" = some ident) := by
  have hcreate : check_hasync_node fetched none =
      ([("synchronize_interface", ident)], none) := by
    unfold check_hasync_node synchronize_interface
    rw [hres]
    simp [configSet, setLeaf, eraseLeaf]
  constructor
  · rintro h rfl
    rfl
  · rintro rfl
    refine ⟨hcreate, ?_, ?_, ?_, ?_⟩ <;> rw [hcreate] <;> simp [findLeaf]

/-- Witness for C5 at a concrete input. -/
theorem C5_witness :
    check_hasync_node [("lan", "LAN")] none =
      ([("synchronize_interface", "lan")], none) ∧
    findLeaf (check_hasync_node [("lan", "LAN")] none).1 "synchronize_config_to_ip"
      = none ∧
    findLeaf (check_hasync_node [("lan", "LAN")] none).1 "remote_system_username"
      = none ∧
    findLeaf (check_hasync_node [("lan", "LAN")] none).1 "remote_system_password"
      = none ∧
    findLeaf (check_hasync_node [("lan", "LAN")] none).1 "synchronize_interface"
      = some "lan" :=
  (C5_check_hasync_node_bootstrap [("lan", "LAN")] none "lan" (by decide)).2 rfl

/-- C4 counterexample: with the remote_system_username leaf present and the
desired value explicitly given as the empty string, the handler leaves the
leaf in place, contradicting the claim that an explicitly empty desired
value removes the leaf. -/
theorem C4_counterexample :
    remote_system_synchronization [("remote_system_username", "root")]
        none (some "") none = [("remote_system_username", "root")] ∧
    ¬ findLeaf (remote_system_synchronization [("remote_system_username", "root")]
        none (some "") none) "remote_system_username" = none := by decide

/-- C4 amended: for peer IP, remote sync target, username and password a
non-empty desired value overwrites the leaf, while an empty/falsy desired
value or an unmentioned field leaves the existing leaf untouched; no leaf is
ever removed by these steps. -/
theorem C4_scalar_overwrite_only (h : Hasync) (url user pass peer : Option String) :
    (findLeaf (remote_system_synchronization h url user pass)
        "synchronize_config_to_ip" =
      (match url with
       | some s => if s ≠ "" then some s else findLeaf h "synchronize_config_to_ip"
       | none => findLeaf h "synchronize_config_to_ip")) ∧
    (findLeaf (remote_system_synchronization h url user pass)
        "remote_system_username" =
      (match user with
       | some s => if s ≠ "" then some s else findLeaf h "remote_system_username"
       | none => findLeaf h "remote_system_username")) ∧
    (findLeaf (remote_system_synchronization h url user pass)
        "remote_system_password" =
      (match pass with
       | some s => if s ≠ "" then some s else findLeaf h "remote_system_password"
       | none => findLeaf h "remote_system_password")) ∧
    (findLeaf (peerStep h peer) "synchronize_peer_ip" =
      (match peer with
       | some s => if s ≠ "" then some s else findLeaf h "synchronize_peer_ip"
       | none => findLeaf h "synchronize_peer_ip")) := by
  refine ⟨?_, ?_, ?_, ?_⟩
  · unfold remote_system_synchronization
    rw [findLeaf_setIfTruthy_ne _ _ (by decide), findLeaf_setIfTruthy_ne _ _ (by decide),
      findLeaf_setIfTruthy_self]
  · unfold remote_system_synchronization
    rw [findLeaf_setIfTruthy_ne _ _ (by decide), findLeaf_setIfTruthy_self,
      findLeaf_setIfTruthy_ne _ _ (by decide)]
  · unfold remote_system_synchronization
    rw [findLeaf_setIfTruthy_self, findLeaf_setIfTruthy_ne _ _ (by decide),
      findLeaf_setIfTruthy_ne _ _ (by decide)]
  · cases peer with
    | none => rfl
    | some s =>
      by_cases hs : s = ""
      · simp only [peerStep]
        rw [if_neg (fun hne => hne hs)]
        show findLeaf h "synchronize_peer_ip" =
          if s ≠ "" then some s else findLeaf h "synchronize_peer_ip"
        rw [if_neg (fun hne => hne hs)]
      · rw [peerStep_truthy hs, findLeaf_setLeaf_eq]
        show some s = if s ≠ "" then some s else findLeaf h "synchronize_peer_ip"
        rw [if_pos hs]

/-- C3 counterexample: the service tokens "a" and "A" differ only in letter
case, yet "a" fails to resolve while "A" resolves: service resolution is
case-sensitive, contradicting the claim. -/
theorem C3_counterexample :
    strLower "a" = strLower "A" ∧
    resolveService [("A", "Alpha")] "a" = none ∧
    resolveService [("A", "Alpha")] "A" = some "A" := by decide

/-- C3 amended: interface resolution is case-insensitive (tokens equal after
lowercasing resolve identically), but service resolution matches tokens
exactly (it succeeds precisely on exact matches against an identifier or a
description, with no lowercasing). -/
theorem C3_case_insensitive_interfaces_only :
    (∀ fetched t1 t2, strLower t1 = strLower t2 →
      resolveInterface fetched t1 = resolveInterface fetched t2) ∧
    (∀ allowed t, (resolveService allowed t).isSome ↔
      (t ∈ allowed.map Prod.fst ∨ t ∈ allowed.map Prod.snd)) :=
  ⟨fun fetched _ _ ht => findInterface_congr (mergeLo0 fetched) ht,
   fun _ _ => resolveService_isSome_iff⟩

/-- Witness for C3 amended at a concrete input. -/
theorem C3_witness :
    resolveInterface [("lan", "LAN")] "LAN" = resolveInterface [("lan", "LAN")] "Lan" :=
  C3_case_insensitive_interfaces_only.1 [("lan", "LAN")] "LAN" "Lan" (by decide)

/-- C9 counterexample: for the interface mapping, the token "A" matches both
the identifier of the entry ("a", "X") and the description of the distinct
entry ("b", "A") after lowercasing, yet resolution does not fail: it
silently returns the first match "a". -/
theorem C9_counterexample :
    resolveInterface [("a", "X"), ("b", "A")] "A" = some "a" ∧
    (strLower "A" = strLower "a" ∨ strLower "A" = strLower "X") ∧
    (strLower "A" = strLower "b" ∨ strLower "A" = strLower "A") ∧
    ("a", "X") ∈ mergeLo0 [("a", "X"), ("b", "A")] ∧
    ("b", "A") ∈ mergeLo0 [("a", "X"), ("b", "A")] ∧
    (("a", "X") : String × String) ≠ ("b", "A") := by decide

/-- C9 amended: resolution fails exactly when no entry matches the token;
when one or more entries match, resolution succeeds and silently returns a
matching entry's identifier (the first match for interfaces), rather than
failing on ambiguity. -/
theorem C9_no_match_fails_else_first_match :
    (∀ fetched t, resolveInterface fetched t = none ↔
      ∀ p ∈ mergeLo0 fetched, ¬(strLower t = strLower p.1 ∨ strLower t = strLower p.2)) ∧
    (∀ allowed t, resolveService allowed t = none ↔
      (t ∉ allowed.map Prod.fst ∧ t ∉ allowed.map Prod.snd)) ∧
    (∀ fetched t id, resolveInterface fetched t = some id →
      ∃ p ∈ mergeLo0 fetched, p.1 = id ∧
        (strLower t = strLower p.1 ∨ strLower t = strLower p.2)) ∧
    (∀ allowed t sid, resolveService allowed t = some sid →
      sid ∈ allowed.map Prod.fst) :=
  ⟨fun fetched t => findInterface_eq_none_iff (mergeLo0 fetched) t,
   fun _ _ => resolveService_eq_none_iff,
   fun fetched t id hf => findInterface_some_match (mergeLo0 fetched) t id hf,
   fun _ _ _ hr => resolveService_mem hr⟩

/-- Witness for C9 amended at a concrete input. -/
theorem C9_witness : ("A" : String) ∈ [(("A" : String), ("B" : String))].map Prod.fst :=
  C9_no_match_fails_else_first_match.2.2.2 [("A", "B")] "A" "A" (by decide)

/- ------------------------------------------------------------------ -/
/- Helpers for C8 (round trip) and C2 (first-error behaviour).        -/
/- ------------------------------------------------------------------ -/

theorem syncRemoveStep_congr (toks1 toks2 : List String) (h : Hasync)
    (p : String × String)
    (hiff : (p.1 ∈ toks1 ∨ p.2 ∈ toks1) ↔ (p.1 ∈ toks2 ∨ p.2 ∈ toks2)) :
    syncRemoveStep toks1 h p = syncRemoveStep toks2 h p := by
  unfold syncRemoveStep
  have h2 := not_congr hiff
  rw [not_or, not_or] at h2
  refine if_congr ?_ rfl rfl
  constructor
  · rintro ⟨a, b, c⟩
    exact ⟨(h2.mp ⟨a, b⟩).1, (h2.mp ⟨a, b⟩).2, c⟩
  · rintro ⟨a, b, c⟩
    exact ⟨(h2.mpr ⟨a, b⟩).1, (h2.mpr ⟨a, b⟩).2, c⟩

theorem syncRemovePass_congr (toks1 toks2 : List String) (l : List (String × String))
    (h : Hasync)
    (hiff : ∀ p ∈ l, ((p.1 ∈ toks1 ∨ p.2 ∈ toks1) ↔ (p.1 ∈ toks2 ∨ p.2 ∈ toks2))) :
    syncRemovePass toks1 l h = syncRemovePass toks2 l h := by
  induction l generalizing h with
  | nil => rfl
  | cons q rest ih =>
    rw [syncRemovePass, syncRemovePass,
      syncRemoveStep_congr toks1 toks2 h q (hiff q (List.mem_cons_self q rest)),
      ih _ (fun p hp => hiff p (List.mem_cons_of_mem _ hp))]

theorem entry_decision_iff {allowed : List (String × String)}
    (hu : UnambiguousAllowList allowed) {id d : String} (hm : (id, d) ∈ allowed)
    {p : String × String} (hp : p ∈ allowed) :
    (p.1 = id ∨ p.2 = id) ↔ (p.1 = d ∨ p.2 = d) := by
  by_cases hpe : p = (id, d)
  · subst hpe
    exact iff_of_true (Or.inl rfl) (Or.inr rfl)
  · constructor
    · rintro (h1 | h1)
      · exfalso
        apply hpe
        have hpd : (id, p.2) ∈ allowed := by
          rw [← h1]
          exact hp
        have hp2 : p.2 = d := entry_unique_of_nodupKeys hu.1 hpd hm
        exact Prod.ext h1 hp2
      · exact absurd h1 ((hu.2 p hp (id, d) hm hpe).2)
    · rintro (h1 | h1)
      · exact absurd h1.symm ((hu.2 (id, d) hm p hp (fun he => hpe he.symm)).2)
      · exact absurd h1.symm ((hu.2 (id, d) hm p hp (fun he => hpe he.symm)).1)

theorem syncAddPass_first_error (allowed : List (String × String)) (pre : List String)
    (t : String) (rest : List String) (h : Hasync)
    (hpre : ∀ t' ∈ pre, (resolveService allowed t').isSome)
    (ht : resolveService allowed t = none) :
    ∃ ext, (∀ c ∈ ext, c.2 = "on") ∧
      syncAddPass allowed (pre ++ t :: rest) h =
        (h ++ ext, some (serviceErrMsg allowed t)) := by
  induction pre generalizing h with
  | nil =>
    refine ⟨[], by simp, ?_⟩
    simp only [List.nil_append, syncAddPass, ht, List.append_nil]
  | cons p0 pre' ih =>
    have hp0 := hpre p0 (List.mem_cons_self p0 pre')
    cases hr0 : resolveService allowed p0 with
    | none =>
      rw [hr0] at hp0
      simp at hp0
    | some sid0 =>
      have htail : ∀ t' ∈ pre', (resolveService allowed t').isSome :=
        fun t' ht' => hpre t' (List.mem_cons_of_mem _ ht')
      simp only [List.cons_append, syncAddPass, hr0]
      by_cases hf : findLeaf h (famTag sid0) = none
      · rw [if_pos hf]
        rcases ih (h ++ [(famTag sid0, "on")]) htail with ⟨ext, hall, heq⟩
        refine ⟨(famTag sid0, "on") :: ext, ?_, ?_⟩
        · intro c hc
          rcases List.mem_cons.mp hc with he | he
          · rw [he]
          · exact hall c he
        · show syncAddPass allowed (pre' ++ t :: rest) (h ++ [(famTag sid0, "on")]) =
            (h ++ ((famTag sid0, "on") :: ext), some (serviceErrMsg allowed t))
          rw [heq, List.append_assoc]
          rfl
      · rw [if_neg hf]
        exact ih h htail

/- ------------------------------------------------------------------ -/
/- Claims C8, C2, C1.                                                 -/
/- ------------------------------------------------------------------ -/

/-- C8 counterexample: with the allow-list {A: D, B: D} (duplicated
description), reconciling by the identifier "A" of the entry (A, D) creates
the flag synchronizeA, while reconciling by its description "D" creates
synchronizeB instead: identifier and description do not round-trip to the
same persisted flag. -/
theorem C8_counterexample :
    ("A", "D") ∈ [("A", "D"), ("B", "D")] ∧
    services_to_synchronize [("A", "D"), ("B", "D")] [] (.list ["A"]) =
      ([("synchronizeA", "on")], none) ∧
    services_to_synchronize [("A", "D"), ("B", "D")] [] (.list ["D"]) =
      ([("synchronizeB", "on")], none) ∧
    findLeaf (services_to_synchronize [("A", "D"), ("B", "D")] [] (.list ["A"])).1
        "synchronizeA" = some "on" ∧
    findLeaf (services_to_synchronize [("A", "D"), ("B", "D")] [] (.list ["D"])).1
        "synchronizeA" = none := by decide

/-- C8 amended: for every unambiguous allow-list (no duplicated description
and no description that doubles as another entry's identifier), reconciling
with a service's canonical identifier and reconciling with its description
yield the same result state, and hence the same persisted flag. -/
theorem C8_round_trip (allowed : List (String × String))
    (hu : UnambiguousAllowList allowed) {id d : String} (hm : (id, d) ∈ allowed)
    (h : Hasync) :
    services_to_synchronize allowed h (.list [id]) =
      services_to_synchronize allowed h (.list [d]) := by
  have hid : resolveService allowed id = some id :=
    resolveService_key (by simpa using List.mem_map_of_mem Prod.fst hm)
  have hdd : resolveService allowed d = some id := resolveService_desc_unamb hu hm
  have haddeq : syncAddPass allowed [id] h = syncAddPass allowed [d] h := by
    simp only [syncAddPass, hid, hdd]
  unfold services_to_synchronize
  simp only [toTokenList]
  rw [haddeq]
  cases hap : syncAddPass allowed [d] h with
  | mk h1 e =>
    cases e with
    | some msg => rfl
    | none =>
      simp only
      rw [syncRemovePass_congr [id] [d] allowed h1 (fun p hp => by
        simpa using entry_decision_iff hu hm hp)]

/-- Witness for C8 amended at a concrete input. -/
theorem C8_witness :
    services_to_synchronize [("A", "Alpha")] [] (.list ["A"]) =
      services_to_synchronize [("A", "Alpha")] [] (.list ["Alpha"]) :=
  C8_round_trip [("A", "Alpha")] ⟨by simp [NodupKeys], by decide⟩ (by decide) []

/-- C2 counterexample: with allow-list {A: Alpha} and desired tokens
[A, Bogus], reconciliation raises on Bogus, but the flag for the earlier
token A has already been created in the record: resolution of the whole
desired set is not validated before the first flag creation. -/
theorem C2_counterexample :
    (services_to_synchronize [("A", "Alpha")] [] (.list ["A", "Bogus"])).2.isSome ∧
    (services_to_synchronize [("A", "Alpha")] [] (.list ["A", "Bogus"])).1 ≠ [] ∧
    (services_to_synchronize [("A", "Alpha")] [] (.list ["A", "Bogus"])).1 =
      [("synchronizeA", "on")] := by decide

/-- C2 amended: when some service token fails to resolve, the handler raises
an error naming the first unresolvable token and listing all allow-list
descriptions, performs no removal, but has already created "on" flags for
the tokens resolved before the failure (validation is per token, not
all-or-nothing); the persisted record stays unchanged because the run aborts
before save.  For interfaces, the raised error names the token but lists no
alternatives and the children are left unchanged. -/
theorem C2_first_error_names_token (allowed : List (String × String)) (h : Hasync)
    (pre rest : List String) (t : String)
    (hpre : ∀ t' ∈ pre, (resolveService allowed t').isSome)
    (ht : resolveService allowed t = none) :
    (∃ ext, (∀ c ∈ ext, c.2 = "on") ∧
      services_to_synchronize allowed h (.list (pre ++ t :: rest)) =
        (h ++ ext, some (serviceErrMsg allowed t))) ∧
    serviceErrMsg allowed t =
      "Service " ++ (t ++
        (" could not be found in your Opnsense installation. These are all the available services: " ++
          (String.intercalate ", " (allowed.map Prod.snd) ++ "."))) ∧
    (∀ fetched h2 tok, resolveInterface fetched tok = none →
      synchronize_interface fetched h2 tok = (h2, some (interfaceErrMsg tok)) ∧
      interfaceErrMsg tok =
        "'" ++ (tok ++
          "' is not a valid interface. If the interface exists, ensure it is enabled and also not virtual.")) := by
  refine ⟨?_, ?_, ?_⟩
  · rcases syncAddPass_first_error allowed pre t rest h hpre ht with ⟨ext, hall, heq⟩
    refine ⟨ext, hall, ?_⟩
    unfold services_to_synchronize
    simp only [toTokenList]
    rw [heq]
  · simp [serviceErrMsg, String.append_assoc]
  · intro fetched h2 tok hresn
    constructor
    · unfold synchronize_interface
      rw [hresn]
    · simp [interfaceErrMsg, String.append_assoc]

/-- Witness for C2 amended at a concrete input. -/
theorem C2_witness :
    ∃ ext, (∀ c ∈ ext, c.2 = "on") ∧
      services_to_synchronize [("A", "Alpha")] [] (.list (["A"] ++ "Bogus" :: [])) =
        ([] ++ ext, some (serviceErrMsg [("A", "Alpha")] "Bogus")) :=
  (C2_first_error_names_token [("A", "Alpha")] [] ["A"] [] "Bogus"
    (by decide) (by decide)).1

/-- C1 counterexample: with the allow-list {A: D, B: D} (duplicated
description), prior flag set {synchronizeA} and desired tokens [D]
(which all resolve), the flag for the allow-listed identifier A survives
reconciliation although no desired token resolves to A: the surviving flags
inside the allow-list are not exactly the identifiers resolved from the
desired set. -/
theorem C1_counterexample :
    (∀ t ∈ ["D"], (resolveService [("A", "D"), ("B", "D")] t).isSome) ∧
    findLeaf (services_to_synchronize [("A", "D"), ("B", "D")]
        [("synchronizeA", "on")] (.list ["D"])).1 "synchronizeA" = some "on" ∧
    "A" ∈ [("A", "D"), ("B", "D")].map Prod.fst ∧
    ¬ ∃ t ∈ ["D"], resolveService [("A", "D"), ("B", "D")] t = some "A" := by decide

/-- C1 amended: for an unambiguous allow-list and a well-formed record, when
every desired token resolves, the flag-set step raises no error, the flags
whose identifiers appear in the allow-list are afterwards present exactly
for the identifiers resolved from the desired tokens, and every child whose
tag is not an allow-list flag tag (in particular every flag for an
identifier outside the allow-list) is preserved unchanged. -/
theorem C1_flag_convergence (allowed : List (String × String)) (toks : List String)
    (h : Hasync) (hu : UnambiguousAllowList allowed) (hn : NodupTags h)
    (hres : ∀ t ∈ toks, (resolveService allowed t).isSome) :
    (services_to_synchronize allowed h (.list toks)).2 = none ∧
    (∀ id ∈ allowed.map Prod.fst,
      ((findLeaf (services_to_synchronize allowed h (.list toks)).1
          (famTag id)).isSome ↔
        ∃ t ∈ toks, resolveService allowed t = some id)) ∧
    (∀ τ, (∀ id ∈ allowed.map Prod.fst, τ ≠ famTag id) →
      findLeaf (services_to_synchronize allowed h (.list toks)).1 τ =
        findLeaf h τ) := by
  refine ⟨?_, ?_, ?_⟩
  · rw [services_to_synchronize_ok allowed toks h hres]
  · intro id hid
    rcases List.mem_map.mp hid with ⟨p, hp, hpfst⟩
    have hm : (id, p.2) ∈ allowed := by
      rw [← hpfst]
      exact hp
    rw [resolveService_unamb_char hu hm toks]
    by_cases hcond : id ∈ toks ∨ p.2 ∈ toks
    · rcases hcond with hcond | hcond
      · have hr : resolveService allowed id = some id := resolveService_key hid
        have hpres := services_flag_present allowed toks h hu.1 hres hcond hr
        exact iff_of_true (Option.isSome_iff_ne_none.mpr hpres) (Or.inl hcond)
      · have hr : resolveService allowed p.2 = some id :=
          resolveService_desc_unamb hu hm
        have hpres := services_flag_present allowed toks h hu.1 hres hcond hr
        exact iff_of_true (Option.isSome_iff_ne_none.mpr hpres) (Or.inr hcond)
    · push_neg at hcond
      have habs := services_flag_absent allowed toks h hn hres hm hcond.1 hcond.2
      refine iff_of_false ?_ ?_
      · simp only at habs
        rw [habs]
        simp
      · intro hc
        rcases hc with hc | hc
        · exact hcond.1 hc
        · exact hcond.2 hc
  · intro τ hτ
    exact services_preserve_other allowed toks h hres hτ

/-- Witness for C1 amended at a concrete input. -/
theorem C1_witness :
    (services_to_synchronize [("A", "Alpha")] [] (.list ["A"])).2 = none :=
  (C1_flag_convergence [("A", "Alpha")] ["A"] [] ⟨by simp [NodupKeys], by decide⟩
    (by simp [NodupTags]) (by decide)).1

/- ------------------------------------------------------------------ -/
/- Helpers for C7 (idempotence of the whole reconciliation run).      -/
/- ------------------------------------------------------------------ -/

theorem statesStep_false (h : Hasync) : statesStep h false = h := by
  unfold statesStep
  rw [if_neg (by decide)]

theorem peerStep_falsy (h : Hasync) {s : String} (hs : s = "") :
    peerStep h (some s) = h := by
  simp only [peerStep]
  rw [if_neg (fun hne => hne hs)]

theorem findLeaf_remote_url (h : Hasync) (url user pass : Option String) :
    findLeaf (remote_system_synchronization h url user pass)
        "synchronize_config_to_ip" =
      (match url with
       | some s => if s ≠ "" then some s else findLeaf h "synchronize_config_to_ip"
       | none => findLeaf h "synchronize_config_to_ip") := by
  unfold remote_system_synchronization
  rw [findLeaf_setIfTruthy_ne _ _ (by decide), findLeaf_setIfTruthy_ne _ _ (by decide),
    findLeaf_setIfTruthy_self]

theorem findLeaf_remote_user (h : Hasync) (url user pass : Option String) :
    findLeaf (remote_system_synchronization h url user pass)
        "remote_system_username" =
      (match user with
       | some s => if s ≠ "" then some s else findLeaf h "remote_system_username"
       | none => findLeaf h "remote_system_username") := by
  unfold remote_system_synchronization
  rw [findLeaf_setIfTruthy_ne _ _ (by decide), findLeaf_setIfTruthy_self,
    findLeaf_setIfTruthy_ne _ _ (by decide)]

theorem findLeaf_remote_pass (h : Hasync) (url user pass : Option String) :
    findLeaf (remote_system_synchronization h url user pass)
        "remote_system_password" =
      (match pass with
       | some s => if s ≠ "" then some s else findLeaf h "remote_system_password"
       | none => findLeaf h "remote_system_password") := by
  unfold remote_system_synchronization
  rw [findLeaf_setIfTruthy_self, findLeaf_setIfTruthy_ne _ _ (by decide),
    findLeaf_setIfTruthy_ne _ _ (by decide)]

theorem check_hasync_node_ok_cases (fetched : List (String × String)) (r : Record)
    {h0 : Hasync} (hc : check_hasync_node fetched r = (h0, none)) :
    r = some h0 ∨ (r = none ∧ ∃ ident, resolveInterface fetched "lan" = some ident ∧
      h0 = [("synchronize_interface", ident)]) := by
  cases r with
  | some hh =>
    left
    simp only [check_hasync_node] at hc
    have h1 := congrArg Prod.fst hc
    simp only at h1
    rw [h1]
  | none =>
    right
    refine ⟨rfl, ?_⟩
    simp only [check_hasync_node] at hc
    cases hres : resolveInterface fetched "lan" with
    | none =>
      rw [show synchronize_interface fetched [] "lan" =
          ([], some (interfaceErrMsg "lan")) from by
        unfold synchronize_interface
        rw [hres]] at hc
      simp at hc
    | some ident =>
      refine ⟨ident, rfl, ?_⟩
      rw [show synchronize_interface fetched [] "lan" =
          ([("synchronize_interface", ident)], none) from by
        unfold synchronize_interface
        rw [hres]
        rfl] at hc
      have h1 := congrArg Prod.fst hc
      simp only at h1
      rw [← h1]
      simp [configSet, eraseLeaf]

theorem interfaceStep_ok_cases {fetched : List (String × String)} {h : Hasync}
    {tok : String} {h3 : Hasync} (hc : interfaceStep fetched h tok = (h3, none)) :
    (tok = "" ∧ h3 = h) ∨
      (tok ≠ "" ∧ ∃ idf, resolveInterface fetched tok = some idf ∧
        h3 = setLeaf h "synchronize_interface" idf) := by
  unfold interfaceStep at hc
  by_cases htok : tok = ""
  · rw [if_neg (fun hne => hne htok)] at hc
    left
    exact ⟨htok, (congrArg Prod.fst hc).symm⟩
  · rw [if_pos htok] at hc
    right
    refine ⟨htok, ?_⟩
    unfold synchronize_interface at hc
    cases hres : resolveInterface fetched tok with
    | none =>
      rw [hres] at hc
      simp at hc
    | some idf =>
      rw [hres] at hc
      exact ⟨idf, rfl, (congrArg Prod.fst hc).symm⟩

theorem servicesStep_ok_cases {allowed : List (String × String)} {h : Hasync}
    {svc : Option StrOrList} {h5 : Hasync} (hc : servicesStep allowed h svc = (h5, none)) :
    (svc = none ∧ h5 = h) ∨
      (∃ sv, svc = some sv ∧
        services_to_synchronize allowed h (.list (toTokenList sv)) = (h5, none)) := by
  cases svc with
  | none =>
    left
    simp only [servicesStep] at hc
    exact ⟨rfl, (congrArg Prod.fst hc).symm⟩
  | some sv =>
    right
    refine ⟨sv, rfl, ?_⟩
    simp only [servicesStep] at hc
    rw [← services_str_eq_list]
    exact hc

theorem main_ok_of_steps (fetched allowed : List (String × String)) (p : Params)
    (r : Record) (h0 h3 h5 : Hasync)
    (hc : check_hasync_node fetched r = (h0, none))
    (hi : interfaceStep fetched
      (statesStep
        (remote_system_synchronization h0 p.synchronize_config_to_ip
          p.remote_system_username p.remote_system_password)
        p.synchronize_states)
      p.synchronize_interface = (h3, none))
    (hs : servicesStep allowed (peerStep h3 p.synchronize_peer_ip)
      p.services_to_synchronize = (h5, none)) :
    main fetched allowed p r = .ok (some h5, decide (¬ (some h5 = r))) := by
  unfold main
  rw [hc]
  simp only
  rw [hi]
  simp only
  rw [hs]

theorem main_ok_inv (fetched allowed : List (String × String)) (p : Params)
    (r r1 : Record) (c : Bool) (hrun : main fetched allowed p r = .ok (r1, c)) :
    ∃ h0 h3 h5,
      check_hasync_node fetched r = (h0, none) ∧
      interfaceStep fetched
        (statesStep
          (remote_system_synchronization h0 p.synchronize_config_to_ip
            p.remote_system_username p.remote_system_password)
          p.synchronize_states)
        p.synchronize_interface = (h3, none) ∧
      servicesStep allowed (peerStep h3 p.synchronize_peer_ip)
        p.services_to_synchronize = (h5, none) ∧
      r1 = some h5 := by
  unfold main at hrun
  cases hchk : check_hasync_node fetched r with
  | mk h0 e0 =>
    rw [hchk] at hrun
    cases e0 with
    | some e => simp at hrun
    | none =>
      simp only at hrun
      cases hif : interfaceStep fetched
          (statesStep
            (remote_system_synchronization h0 p.synchronize_config_to_ip
              p.remote_system_username p.remote_system_password)
            p.synchronize_states)
          p.synchronize_interface with
      | mk h3 e1 =>
        rw [hif] at hrun
        cases e1 with
        | some e => simp at hrun
        | none =>
          simp only at hrun
          cases hsvc : servicesStep allowed (peerStep h3 p.synchronize_peer_ip)
              p.services_to_synchronize with
          | mk h5 e2 =>
            rw [hsvc] at hrun
            cases e2 with
            | some e => simp at hrun
            | none =>
              simp only at hrun
              refine ⟨h0, h3, h5, rfl, hif, hsvc, ?_⟩
              have h2 := congrArg (fun x => match x with
                | Except.ok (y, _) => y
                | Except.error _ => none) hrun
              simpa using h2.symm

/-- C7: reconciliation is idempotent: when a full run of main succeeds, a
second run with the identical parameters and allow-lists against the record
produced by the first run succeeds with the same record and reports
changed = false, so no commit or apply is performed.  The record is
well-formed (named leaves carry distinct tags, as in the spec data model),
the allow-list is a dict (distinct keys), and no service flag tag collides
with one of the six fixed scalar leaf tags. -/
theorem C7_reconcile_idempotent (fetched allowed : List (String × String)) (p : Params)
    (r r1 : Record) (c : Bool)
    (hwf : ∀ h00, r = some h00 → NodupTags h00)
    (hnk : NodupKeys allowed)
    (hrsv : ∀ id ∈ allowed.map Prod.fst,
      famTag id ≠ "synchronize_interface" ∧ famTag id ≠ "synchronize_peer_ip" ∧
      famTag id ≠ "synchronize_config_to_ip" ∧ famTag id ≠ "remote_system_username" ∧
      famTag id ≠ "remote_system_password" ∧ famTag id ≠ "synchronize_states")
    (hrun : main fetched allowed p r = .ok (r1, c)) :
    main fetched allowed p r1 = .ok (r1, false) := by
  rcases main_ok_inv fetched allowed p r r1 c hrun with ⟨h0, h3, h5, hchk, hif, hsvc, hr1⟩
  subst hr1
  have hn0 : NodupTags h0 := by
    rcases check_hasync_node_ok_cases fetched r hchk with hcase | ⟨-, ident, -, hh0⟩
    · exact hwf h0 hcase
    · rw [hh0]
      simp [NodupTags]
  have hn3 : NodupTags h3 := by
    rcases interfaceStep_ok_cases hif with ⟨-, hh3⟩ | ⟨-, idf, -, hh3⟩
    · rw [hh3]
      exact nodupTags_statesStep _ (nodupTags_remote _ _ _ hn0)
    · rw [hh3]
      exact nodupTags_setLeaf _ _ (nodupTags_statesStep _ (nodupTags_remote _ _ _ hn0))
  have hn4 : NodupTags (peerStep h3 p.synchronize_peer_ip) := nodupTags_peerStep _ hn3
  have h3_other : ∀ τ, τ ≠ "synchronize_interface" →
      findLeaf h3 τ = findLeaf (statesStep (remote_system_synchronization h0
        p.synchronize_config_to_ip p.remote_system_username p.remote_system_password)
        p.synchronize_states) τ := by
    intro τ hτ
    rcases interfaceStep_ok_cases hif with ⟨-, hh3⟩ | ⟨-, idf, -, hh3⟩
    · rw [hh3]
    · rw [hh3, findLeaf_setLeaf_ne _ _ hτ]
  have h5_other : ∀ τ, (∀ id ∈ allowed.map Prod.fst, τ ≠ famTag id) →
      findLeaf h5 τ = findLeaf (peerStep h3 p.synchronize_peer_ip) τ := by
    intro τ hτ
    rcases servicesStep_ok_cases hsvc with ⟨-, hh5⟩ | ⟨sv, -, hsvceq⟩
    · rw [hh5]
    · have hres := services_ok_resolvable allowed (toTokenList sv) _ hsvceq
      have hpres := services_preserve_other allowed (toTokenList sv)
        (peerStep h3 p.synchronize_peer_ip) hres hτ
      have h51 : (services_to_synchronize allowed (peerStep h3 p.synchronize_peer_ip)
          (.list (toTokenList sv))).1 = h5 := by rw [hsvceq]
      rw [← h51]
      exact hpres
  have hchain : ∀ τ, τ ≠ "synchronize_interface" → τ ≠ "synchronize_peer_ip" →
      (∀ id ∈ allowed.map Prod.fst, τ ≠ famTag id) →
      findLeaf h5 τ = findLeaf (statesStep (remote_system_synchronization h0
        p.synchronize_config_to_ip p.remote_system_username p.remote_system_password)
        p.synchronize_states) τ := by
    intro τ h1 h2 h3τ
    rw [h5_other τ h3τ, findLeaf_peerStep_other _ _ h2, h3_other τ h1]
  have hfam_if : ∀ id ∈ allowed.map Prod.fst, "synchronize_interface" ≠ famTag id :=
    fun id hid he => (hrsv id hid).1 he.symm
  have hfam_pi : ∀ id ∈ allowed.map Prod.fst, "synchronize_peer_ip" ≠ famTag id :=
    fun id hid he => (hrsv id hid).2.1 he.symm
  have hfam_ci : ∀ id ∈ allowed.map Prod.fst, "synchronize_config_to_ip" ≠ famTag id :=
    fun id hid he => (hrsv id hid).2.2.1 he.symm
  have hfam_un : ∀ id ∈ allowed.map Prod.fst, "remote_system_username" ≠ famTag id :=
    fun id hid he => (hrsv id hid).2.2.2.1 he.symm
  have hfam_pw : ∀ id ∈ allowed.map Prod.fst, "remote_system_password" ≠ famTag id :=
    fun id hid he => (hrsv id hid).2.2.2.2.1 he.symm
  have hfam_st : ∀ id ∈ allowed.map Prod.fst, "synchronize_states" ≠ famTag id :=
    fun id hid he => (hrsv id hid).2.2.2.2.2 he.symm
  have hA : ∀ s, p.synchronize_config_to_ip = some s → s ≠ "" →
      findLeaf h5 "synchronize_config_to_ip" = some s := by
    intro s hs hsne
    rw [hchain _ (by decide) (by decide) hfam_ci,
      findLeaf_statesStep_other _ _ (by decide), findLeaf_remote_url, hs]
    show (if s ≠ "" then some s else findLeaf h0 "synchronize_config_to_ip") = some s
    rw [if_pos hsne]
  have hB : ∀ s, p.remote_system_username = some s → s ≠ "" →
      findLeaf h5 "remote_system_username" = some s := by
    intro s hs hsne
    rw [hchain _ (by decide) (by decide) hfam_un,
      findLeaf_statesStep_other _ _ (by decide), findLeaf_remote_user, hs]
    show (if s ≠ "" then some s else findLeaf h0 "remote_system_username") = some s
    rw [if_pos hsne]
  have hC : ∀ s, p.remote_system_password = some s → s ≠ "" →
      findLeaf h5 "remote_system_password" = some s := by
    intro s hs hsne
    rw [hchain _ (by decide) (by decide) hfam_pw,
      findLeaf_statesStep_other _ _ (by decide), findLeaf_remote_pass, hs]
    show (if s ≠ "" then some s else findLeaf h0 "remote_system_password") = some s
    rw [if_pos hsne]
  have hD : p.synchronize_states = true → findLeaf h5 "synchronize_states" ≠ none := by
    intro hb
    rw [hchain _ (by decide) (by decide) hfam_st, hb]
    exact findLeaf_statesStep_true _
  have hE : p.synchronize_interface ≠ "" → ∃ idf,
      resolveInterface fetched p.synchronize_interface = some idf ∧
      findLeaf h5 "synchronize_interface" = some idf := by
    intro hne
    rcases interfaceStep_ok_cases hif with ⟨heq, -⟩ | ⟨-, idf, hresif, hh3⟩
    · exact absurd heq hne
    · refine ⟨idf, hresif, ?_⟩
      rw [h5_other _ hfam_if, findLeaf_peerStep_other _ _ (by decide), hh3,
        findLeaf_setLeaf_eq]
  have hF : ∀ s, p.synchronize_peer_ip = some s → s ≠ "" →
      findLeaf h5 "synchronize_peer_ip" = some s := by
    intro s hs hsne
    rw [h5_other _ hfam_pi, hs, peerStep_truthy hsne, findLeaf_setLeaf_eq]
  have hG : ∀ sv, p.services_to_synchronize = some sv →
      (∀ t ∈ toTokenList sv, (resolveService allowed t).isSome) ∧
      (∀ t ∈ toTokenList sv, ∀ sid, resolveService allowed t = some sid →
        findLeaf h5 (famTag sid) ≠ none) ∧
      (∀ q ∈ allowed, q.1 ∉ toTokenList sv → q.2 ∉ toTokenList sv →
        findLeaf h5 (famTag q.1) = none) := by
    intro sv hsv
    rcases servicesStep_ok_cases hsvc with ⟨hnone, -⟩ | ⟨sv2, hsv2, hsvceq⟩
    · rw [hsv] at hnone
      cases hnone
    · rw [hsv] at hsv2
      injection hsv2 with he
      subst he
      have hres := services_ok_resolvable allowed (toTokenList sv) _ hsvceq
      have h51 : (services_to_synchronize allowed (peerStep h3 p.synchronize_peer_ip)
          (.list (toTokenList sv))).1 = h5 := by rw [hsvceq]
      refine ⟨hres, ?_, ?_⟩
      · intro t ht sid hrt
        have hp := services_flag_present allowed (toTokenList sv)
          (peerStep h3 p.synchronize_peer_ip) hnk hres ht hrt
        rw [h51] at hp
        exact hp
      · intro q hq hq1 hq2
        have hp := services_flag_absent allowed (toTokenList sv)
          (peerStep h3 p.synchronize_peer_ip) hn4 hres hq hq1 hq2
        rw [h51] at hp
        exact hp
  have hRem2 : remote_system_synchronization h5 p.synchronize_config_to_ip
      p.remote_system_username p.remote_system_password = h5 :=
    remote_fixpoint hA hB hC
  have hSt2 : statesStep h5 p.synchronize_states = h5 := by
    cases hb : p.synchronize_states with
    | false => exact statesStep_false h5
    | true => exact statesStep_present h5 (hD hb)
  have hIf2 : interfaceStep fetched h5 p.synchronize_interface = (h5, none) := by
    unfold interfaceStep
    by_cases hne : p.synchronize_interface = ""
    · rw [if_neg (fun hcc => hcc hne)]
    · rw [if_pos hne]
      rcases hE hne with ⟨idf, hresif, hfind⟩
      unfold synchronize_interface
      rw [hresif]
      show (setLeaf h5 "synchronize_interface" idf, none) = (h5, none)
      rw [setLeaf_of_findLeaf hfind]
  have hPeer2 : peerStep h5 p.synchronize_peer_ip = h5 := by
    cases hpi : p.synchronize_peer_ip with
    | none => rfl
    | some s =>
      by_cases hs : s = ""
      · exact peerStep_falsy h5 hs
      · rw [peerStep_truthy hs, setLeaf_of_findLeaf (hF s hpi hs)]
  have hSvc2 : servicesStep allowed h5 p.services_to_synchronize = (h5, none) := by
    cases hsv : p.services_to_synchronize with
    | none => rfl
    | some sv =>
      simp only [servicesStep]
      rw [services_str_eq_list]
      rcases hG sv hsv with ⟨hres, hpresent, habsent⟩
      apply services_to_synchronize_fixpoint
      · intro t ht
        rcases Option.isSome_iff_exists.mp (hres t ht) with ⟨sid, hsid⟩
        exact ⟨sid, hsid, hpresent t ht sid hsid⟩
      · intro q hq
        by_cases hcq : q.1 ∈ toTokenList sv ∨ q.2 ∈ toTokenList sv
        · exact Or.inl hcq
        · push_neg at hcq
          exact Or.inr (habsent q hq hcq.1 hcq.2)
  have hi2 : interfaceStep fetched
      (statesStep (remote_system_synchronization h5 p.synchronize_config_to_ip
        p.remote_system_username p.remote_system_password) p.synchronize_states)
      p.synchronize_interface = (h5, none) := by
    rw [hRem2, hSt2]
    exact hIf2
  have hs2 : servicesStep allowed (peerStep h5 p.synchronize_peer_ip)
      p.services_to_synchronize = (h5, none) := by
    rw [hPeer2]
    exact hSvc2
  have hmain2 := main_ok_of_steps fetched allowed p (some h5) h5 h5 h5 rfl hi2 hs2
  rw [hmain2]
  simp

/-- Witness for C7 at a concrete input: a successful first run from an
absent HA block, replayed on its own output. -/
theorem C7_witness :
    main [("lan", "LAN")] [("A", "Alpha")]
      ⟨true, "lan", none, some "1.2.3.4", some "root", some "pw",
        some (.list ["Alpha"])⟩
      (some [("synchronize_interface", "lan"), ("synchronize_config_to_ip", "1.2.3.4"),
        ("remote_system_username", "root"), ("remote_system_password", "pw"),
        ("synchronize_states", "on"), ("synchronizeA", "on")]) =
    .ok (some [("synchronize_interface", "lan"), ("synchronize_config_to_ip", "1.2.3.4"),
        ("remote_system_username", "root"), ("remote_system_password", "pw"),
        ("synchronize_states", "on"), ("synchronizeA", "on")], false) :=
  C7_reconcile_idempotent [("lan", "LAN")] [("A", "Alpha")]
    ⟨true, "lan", none, some "1.2.3.4", some "root", some "pw",
      some (.list ["Alpha"])⟩
    none
    (some [("synchronize_interface", "lan"), ("synchronize_config_to_ip", "1.2.3.4"),
      ("remote_system_username", "root"), ("remote_system_password", "pw"),
      ("synchronize_states", "on"), ("synchronizeA", "on")])
    true
    (fun h00 h => nomatch h) (by simp [NodupKeys]) (by decide) rfl

end HASettings
